import Mathlib

/-!
Verification of the CMonKey host-monitoring core (`aurenet/monitoring/checkmk.py`
together with the renderer slice of `rgb_keyboard.py`), shallowly embedded:
Python dicts become ordered association lists, sets become lists up to
membership, `time.time()` values and color factors become rationals, host
states (arbitrary JSON integers) become integers.
-/

set_option maxHeartbeats 1000000

namespace CMonKey

/-! ### Association lists with Python-dict update semantics -/

/-- First-match lookup, as Python `d.get(k)`. -/
def alookup {α : Type} (k : String) : List (String × α) → Option α
  | [] => none
  | (k', v) :: t => if k' = k then some v else alookup k t

/-- Python `d[k] = v`: replace in place if the key exists, else append. -/
def ains {α : Type} (k : String) (v : α) : List (String × α) → List (String × α)
  | [] => [(k, v)]
  | (k', v') :: t => if k' = k then (k, v) :: t else (k', v') :: ains k v t

/-- Python `d.pop(k, None)`: drop the first entry with the key. -/
def aerase {α : Type} (k : String) : List (String × α) → List (String × α)
  | [] => []
  | (k', v') :: t => if k' = k then t else (k', v') :: aerase k t

/-- Keys of an association list, in order. -/
def akeys {α : Type} (m : List (String × α)) : List String :=
  m.map Prod.fst

@[simp] theorem alookup_nil {α : Type} (k : String) : alookup k ([] : List (String × α)) = none := rfl

theorem alookup_ains_self {α : Type} (k : String) (v : α) (m : List (String × α)) :
    alookup k (ains k v m) = some v := by
  induction m with
  | nil => simp [ains, alookup]
  | cons e t ih =>
    obtain ⟨k', v'⟩ := e
    by_cases h : k' = k
    · simp [ains, h, alookup]
    · simp [ains, h, alookup, ih]

theorem alookup_ains_ne {α : Type} {k k' : String} (h : k' ≠ k) (v : α) (m : List (String × α)) :
    alookup k' (ains k v m) = alookup k' m := by
  induction m with
  | nil => simp [ains, alookup, fun hh => h hh.symm ∘ Eq.symm, (Ne.symm h)]
  | cons e t ih =>
    obtain ⟨k₀, v₀⟩ := e
    by_cases hk : k₀ = k
    · subst hk
      simp [ains, alookup, Ne.symm h]
    · simp [ains, hk, alookup, ih]

theorem alookup_aerase_ne {α : Type} {k k' : String} (h : k' ≠ k) (m : List (String × α)) :
    alookup k' (aerase k m) = alookup k' m := by
  induction m with
  | nil => simp [aerase]
  | cons e t ih =>
    obtain ⟨k₀, v₀⟩ := e
    by_cases hk : k₀ = k
    · subst hk
      simp [aerase, alookup, Ne.symm h]
    · simp [aerase, hk, alookup, ih]

theorem alookup_aerase_self {α : Type} (k : String) (m : List (String × α))
    (hnd : (akeys m).Nodup) : alookup k (aerase k m) = none := by
  induction m with
  | nil => simp [aerase]
  | cons e t ih =>
    obtain ⟨k₀, v₀⟩ := e
    simp only [akeys, List.map_cons, List.nodup_cons] at hnd
    by_cases hk : k₀ = k
    · subst hk
      simp only [aerase, if_pos rfl]
      -- no further entry with this key, by nodup
      clear ih
      induction t with
      | nil => simp [alookup]
      | cons e' t' ih' =>
        obtain ⟨k₁, v₁⟩ := e'
        simp only [List.map_cons, List.mem_cons] at hnd
        have hne : k₁ ≠ k₀ := fun hh => hnd.1 (Or.inl hh.symm)
        have : alookup k₀ t' = none := by
          refine ih' ⟨fun hm => hnd.1 (Or.inr hm), ?_⟩
          exact (List.nodup_cons.mp hnd.2).2
        simp [alookup, hne, this]
    · simp only [aerase, if_neg hk, alookup, if_neg hk]
      exact ih hnd.2

theorem alookup_cons_self {α : Type} (k : String) (v : α) (t : List (String × α)) :
    alookup k ((k, v) :: t) = some v := by
  rw [alookup]
  simp

theorem alookup_cons_ne {α : Type} {k₀ k : String} (h : k₀ ≠ k) (v : α) (t : List (String × α)) :
    alookup k ((k₀, v) :: t) = alookup k t := by
  rw [alookup]
  simp [h]

theorem ains_cons_self {α : Type} (k : String) (v v' : α) (t : List (String × α)) :
    ains k v ((k, v') :: t) = (k, v) :: t := by
  rw [ains]
  simp

theorem ains_cons_ne {α : Type} {k₀ k : String} (h : k₀ ≠ k) (v v' : α) (t : List (String × α)) :
    ains k v ((k₀, v') :: t) = (k₀, v') :: ains k v t := by
  rw [ains]
  simp [h]

theorem alookup_eq_some_mem {α : Type} {k : String} {v : α} {m : List (String × α)}
    (h : alookup k m = some v) : (k, v) ∈ m := by
  induction m with
  | nil => simp [alookup] at h
  | cons e t ih =>
    obtain ⟨k₀, v₀⟩ := e
    by_cases hk : k₀ = k
    · subst hk
      rw [alookup_cons_self] at h
      obtain rfl : v₀ = v := Option.some.injEq .. ▸ h
      exact List.mem_cons_self _ _
    · rw [alookup_cons_ne hk] at h
      exact List.mem_cons_of_mem _ (ih h)

theorem mem_alookup_of_nodup {α : Type} {k : String} {v : α} {m : List (String × α)}
    (hnd : (akeys m).Nodup) (h : (k, v) ∈ m) : alookup k m = some v := by
  induction m with
  | nil => simp at h
  | cons e t ih =>
    obtain ⟨k₀, v₀⟩ := e
    simp only [akeys, List.map_cons, List.nodup_cons] at hnd
    rcases List.mem_cons.mp h with h1 | h1
    · obtain ⟨rfl, rfl⟩ := Prod.mk.injEq .. ▸ Prod.ext_iff.mp h1
      simp [alookup]
    · have hk : k₀ ≠ k := by
        rintro rfl
        exact hnd.1 (List.mem_map.mpr ⟨(k₀, v), h1, rfl⟩)
      simp only [alookup, if_neg hk]
      exact ih hnd.2 h1

/-- Looking up in a value-filtered association list (the TTL sweep shape). -/
theorem alookup_filter {α : Type} (p : String × α → Bool) (k : String) (m : List (String × α))
    (hnd : (akeys m).Nodup) :
    alookup k (m.filter p) =
      (alookup k m).bind (fun v => if p (k, v) then some v else none) := by
  induction m with
  | nil => simp [alookup]
  | cons e t ih =>
    obtain ⟨k₀, v₀⟩ := e
    simp only [akeys, List.map_cons, List.nodup_cons] at hnd
    by_cases hk : k₀ = k
    · subst hk
      by_cases hp : p (k₀, v₀)
      · simp only [List.filter_cons, hp, alookup, if_pos rfl, Option.some_bind]
        simp [hp]
      · simp only [List.filter_cons, alookup, if_pos rfl, Option.some_bind]
        simp only [hp, Bool.false_eq_true, if_false, cond_false]
        -- the key does not occur in the tail, so the filtered tail lookup is none
        have : alookup k₀ t = none := by
          clear ih
          induction t with
          | nil => simp [alookup]
          | cons e' t' ih' =>
            obtain ⟨k₁, v₁⟩ := e'
            simp only [List.map_cons, List.mem_cons] at hnd
            have hne : k₁ ≠ k₀ := fun hh => hnd.1 (Or.inl hh.symm)
            simp only [alookup, if_neg hne]
            exact ih' ⟨fun hm => hnd.1 (Or.inr hm), (List.nodup_cons.mp hnd.2).2⟩
        have h2 : alookup k₀ (t.filter p) = none := by
          rw [ih hnd.2, this]
          rfl
        simpa [hp] using h2
    · by_cases hp : p (k₀, v₀)
      · simp only [List.filter_cons, hp, cond_true, alookup, if_neg hk]
        exact ih hnd.2
      · simp only [List.filter_cons, hp, cond_false, alookup, if_neg hk]
        exact ih hnd.2

theorem akeys_ains_subset {α : Type} (k : String) (v : α) (m : List (String × α)) :
    ∀ x, x ∈ akeys (ains k v m) → x = k ∨ x ∈ akeys m := by
  induction m with
  | nil => simp [ains, akeys]
  | cons e t ih =>
    obtain ⟨k₀, v₀⟩ := e
    intro x hx
    by_cases hk : k₀ = k
    · subst hk
      rw [ains_cons_self] at hx
      simp only [akeys, List.map_cons, List.mem_cons] at hx ⊢
      tauto
    · rw [ains_cons_ne hk] at hx
      simp only [akeys, List.map_cons, List.mem_cons] at hx ⊢
      rcases hx with hx | hx
      · tauto
      · rcases ih x hx with h | h <;> tauto

theorem nodup_akeys_ains {α : Type} (k : String) (v : α) (m : List (String × α))
    (hnd : (akeys m).Nodup) : (akeys (ains k v m)).Nodup := by
  induction m with
  | nil => simp [ains, akeys]
  | cons e t ih =>
    obtain ⟨k₀, v₀⟩ := e
    simp only [akeys, List.map_cons, List.nodup_cons] at hnd
    by_cases hk : k₀ = k
    · subst hk
      rw [ains_cons_self]
      simp only [akeys, List.map_cons, List.nodup_cons]
      exact hnd
    · rw [ains_cons_ne hk]
      simp only [akeys, List.map_cons, List.nodup_cons]
      refine ⟨fun hmem => ?_, ih hnd.2⟩
      rcases akeys_ains_subset k v t k₀ hmem with h | h
      · exact hk h
      · exact hnd.1 h

theorem akeys_aerase_sublist {α : Type} (k : String) (m : List (String × α)) :
    (akeys (aerase k m)).Sublist (akeys m) := by
  induction m with
  | nil => simp [aerase]
  | cons e t ih =>
    obtain ⟨k₀, v₀⟩ := e
    by_cases hk : k₀ = k
    · simp only [aerase, if_pos hk, akeys, List.map_cons]
      exact (List.sublist_cons_self _ _)
    · simp only [aerase, if_neg hk, akeys, List.map_cons]
      exact ih.cons₂ _

theorem nodup_akeys_aerase {α : Type} (k : String) (m : List (String × α))
    (hnd : (akeys m).Nodup) : (akeys (aerase k m)).Nodup :=
  (akeys_aerase_sublist k m).nodup hnd

theorem nodup_akeys_filter {α : Type} (p : String × α → Bool) (m : List (String × α))
    (hnd : (akeys m).Nodup) : (akeys (m.filter p)).Nodup := by
  have : (akeys (m.filter p)).Sublist (akeys m) := (List.filter_sublist m).map Prod.fst
  exact this.nodup hnd

/-! ### String helpers: Python `in` on lowercased names -/

/-- Does `p` start the character list `l`? -/
def leadsWith : List Char → List Char → Bool
  | [], _ => true
  | _ :: _, [] => false
  | p :: ps, c :: cs => p = c && leadsWith ps cs

/-- Is `p` a contiguous run inside `l`?  (Python `p in l` on strings.) -/
def containsSub (p : List Char) : List Char → Bool
  | [] => leadsWith p []
  | c :: t => leadsWith p (c :: t) || containsSub p t

/-- Python `pat in s` for strings. -/
def pyIn (pat s : String) : Bool :=
  containsSub pat.data s.data

/-- Python `s.lower()`. -/
def pyLower (s : String) : String :=
  String.mk (s.data.map Char.toLower)

/-- `CheckMKMonitor._get_host_priority` (0 = most important). -/
def hostPriority (name : String) : ℕ :=
  let nl := pyLower name
  if pyIn "server" nl || pyIn "srv" nl then 0
  else if pyIn "router" nl || pyIn "switch" nl || pyIn "gateway" nl then 1
  else if pyIn "nas" nl || pyIn "storage" nl then 2
  else if pyIn "proxmox" nl || pyIn "esxi" nl || pyIn "vm" nl then 3
  else if pyIn "pi" nl || pyIn "raspberry" nl then 4
  else if pyIn "pc" nl || pyIn "desktop" nl || pyIn "workstation" nl then 5
  else if pyIn "laptop" nl || pyIn "notebook" nl then 6
  else if pyIn "phone" nl || pyIn "iphone" nl || pyIn "android" nl then 8
  else if pyIn "ipad" nl || pyIn "tablet" nl then 9
  else 7

/-- `CheckMKMonitor._get_zone_color`. -/
def zoneColor (name : String) : ℤ × ℤ × ℤ :=
  let nl := pyLower name
  if pyIn "server" nl || pyIn "srv" nl || pyIn "proxmox" nl || pyIn "esxi" nl then (30, 100, 255)
  else if pyIn "router" nl || pyIn "switch" nl || pyIn "gateway" nl || pyIn "ap" nl then (0, 200, 200)
  else if pyIn "nas" nl || pyIn "storage" nl || pyIn "backup" nl then (150, 50, 255)
  else if pyIn "pi" nl || pyIn "raspberry" nl || pyIn "esp" nl || pyIn "tapo" nl then (255, 50, 150)
  else if pyIn "pc" nl || pyIn "desktop" nl || pyIn "workstation" nl || pyIn "mega" nl then (50, 255, 100)
  else if pyIn "laptop" nl || pyIn "notebook" nl then (50, 200, 180)
  else if pyIn "phone" nl || pyIn "iphone" nl || pyIn "android" nl || pyIn "pixel" nl then (255, 150, 30)
  else if pyIn "ipad" nl || pyIn "tablet" nl || pyIn "pad" nl then (180, 255, 50)
  else if pyIn "cam" nl || pyIn "ring" nl || pyIn "security" nl then (255, 80, 50)
  else if pyIn "home" nl || pyIn "assistant" nl || pyIn "alexa" nl then (255, 200, 150)
  else (100, 220, 100)

/-! ### Data model (`aurenet/core/types.py` and `CheckMKMonitor` state) -/

/-- `HostState` dataclass. -/
structure HostState where
  name : String
  state : ℤ
  led_index : ℕ
  zone_color : ℤ × ℤ × ℤ
  priority : ℕ
deriving DecidableEq

/-- Stored supernova / phoenix event payload (`{"start", "prev_state", "priority"}`). -/
structure SNData where
  start : ℚ
  prev_state : ℤ
  priority : ℕ
deriving DecidableEq

/-- Stored warning event payload (`{"start", "priority"}`). -/
structure WData where
  start : ℚ
  priority : ℕ
deriving DecidableEq

/-- Stored blackhole / spawn event payload (`{"start", "key_index", "priority"}`). -/
structure BSData where
  start : ℚ
  key_index : ℕ
  priority : ℕ
deriving DecidableEq

/-- One record of the API response's `value` array: `id` and
`extensions.state` may each be absent. -/
structure RawEntry where
  id : Option String
  state : Option ℤ
deriving DecidableEq

/-- Animation kinds (`AnimationType`). -/
inductive EvKind where
  | supernova
  | phoenix
  | warning
  | blackhole
  | spawn
  | celebration
deriving DecidableEq

/-- `AnimationEvent` dataclass. -/
structure AnimationEvent where
  type : EvKind
  hostname : String
  start_time : ℚ
  led_index : ℕ
  prev_state : Option ℤ
  priority : ℕ
deriving DecidableEq

/-- The mutable state of a `CheckMKMonitor`. -/
structure Monitor where
  hosts : List HostState
  previous_states : List (String × ℤ)
  known_hosts : List String
  supernovas : List (String × SNData)
  phoenixes : List (String × SNData)
  warnings : List (String × WData)
  blackholes : List (String × BSData)
  spawns : List (String × BSData)
  celebration : Option ℚ
  had_problems : Bool
deriving DecidableEq

/-- The monitor as constructed (`__init__`). -/
def Monitor.initial : Monitor :=
  ⟨[], [], [], [], [], [], [], [], none, false⟩

/-- Key well-formedness: Python dicts cannot repeat keys and sets cannot
repeat elements, so any monitor state reachable in the program satisfies
this. -/
def MonitorWF (st : Monitor) : Prop :=
  (akeys st.previous_states).Nodup ∧ (akeys st.supernovas).Nodup ∧
    (akeys st.phoenixes).Nodup ∧ (akeys st.warnings).Nodup ∧
    (akeys st.blackholes).Nodup ∧ (akeys st.spawns).Nodup ∧ st.known_hosts.Nodup

instance (st : Monitor) : Decidable (MonitorWF st) := by
  unfold MonitorWF
  infer_instance

/-! ### Response parsing and sorting (`_process_response`) -/

/-- `name = h.get("id", ""); state = h.get("extensions", {}).get("state", 0)`. -/
def parseEntries (l : List RawEntry) : List (String × ℤ) :=
  l.map fun e => (e.id.getD "", e.state.getD 0)

/-- `_sort_by_priority`: Python's `sorted` keyed on `_get_host_priority`.
Python's sort is stable, and a stable sort by a total preorder is unique,
so the stable insertion sort is extensionally the same function. -/
def sortByPriority (l : List (String × ℤ)) : List (String × ℤ) :=
  l.insertionSort fun a b => hostPriority a.1 ≤ hostPriority b.1

/-- Bool membership test on string lists (Python `in` on a set of names). -/
def slistMem (n : String) : List String → Bool
  | [] => false
  | x :: t => x = n || slistMem n t

theorem slistMem_iff (n : String) (l : List String) : slistMem n l = true ↔ n ∈ l := by
  induction l with
  | nil => simp [slistMem]
  | cons x t ih =>
    rw [slistMem]
    simp only [Bool.or_eq_true, decide_eq_true_eq, List.mem_cons, ih]
    exact or_congr_left eq_comm

/-- Index of the first element satisfying `p`, if any. -/
def findIdxFirst {α : Type} (p : α → Bool) : List α → Option ℕ
  | [] => none
  | x :: t => if p x then some 0 else (findIdxFirst p t).map (· + 1)

theorem findIdxFirst_spec {α : Type} (p : α → Bool) (l : List α) {x : α}
    (hx : x ∈ l) (hp : p x = true) :
    ∃ i, findIdxFirst p l = some i ∧
      ∃ hlt : i < l.length, p (l.get ⟨i, hlt⟩) = true := by
  induction l with
  | nil => simp at hx
  | cons y t ih =>
    by_cases hy : p y
    · exact ⟨0, by simp [findIdxFirst, hy], by simp, by simpa using hy⟩
    · rcases List.mem_cons.mp hx with rfl | h1
      · exact absurd hp hy
      · obtain ⟨i, hi, hlt, hpi⟩ := ih h1
        refine ⟨i + 1, ?_, by simpa using Nat.succ_lt_succ hlt, by simpa using hpi⟩
        simp [findIdxFirst, hy, hi]

/-- `old_index = 0; for i, h in enumerate(hosts): if h.name == name: old_index = i; break`. -/
def pyFindIdxHost (name : String) (l : List HostState) : ℕ :=
  (findIdxFirst (fun h => decide (h.name = name)) l).getD 0

/-- The same first-match-index scan over raw `{"name", "state"}` records. -/
def pyFindIdxPair (name : String) (l : List (String × ℤ)) : ℕ :=
  (findIdxFirst (fun e => decide (e.1 = name)) l).getD 0

theorem pyFindIdxPair_spec (name : String) (l : List (String × ℤ))
    (h : name ∈ l.map Prod.fst) :
    ∃ hlt : pyFindIdxPair name l < l.length,
      (l.get ⟨pyFindIdxPair name l, hlt⟩).1 = name := by
  obtain ⟨e, he, rfl⟩ := List.mem_map.mp h
  obtain ⟨i, hi, hlt, hpi⟩ := findIdxFirst_spec (fun q => decide (q.1 = e.1)) l he (by simp)
  rw [pyFindIdxPair, hi]
  exact ⟨hlt, by simpa using hpi⟩

/-! ### Per-entry state diffing (first loop of `_process_response`) -/

/-- Loop state of the per-entry pass: previous-state map, the three
per-host transition event maps, and a log of the events written. -/
structure P1 where
  prev : List (String × ℤ)
  sns : List (String × SNData)
  phx : List (String × SNData)
  wrn : List (String × WData)
  log : List (EvKind × String)
deriving DecidableEq

/-- One iteration of the per-entry loop body: `prev_state` is looked up
with default 0 (OK), then the elif chain stores at most one event, then
`previous_states[name] = state` unconditionally. -/
def stepEntry (now : ℚ) (a : P1) (e : String × ℤ) : P1 :=
  if e.2 = 2 ∧ (alookup e.1 a.prev).getD 0 ≠ 2 then
    { a with
      sns := ains e.1 ⟨now, (alookup e.1 a.prev).getD 0, hostPriority e.1⟩ a.sns
      prev := ains e.1 e.2 a.prev
      log := a.log ++ [(EvKind.supernova, e.1)] }
  else if e.2 = 0 ∧ (alookup e.1 a.prev).getD 0 > 0 then
    { a with
      phx := ains e.1 ⟨now, (alookup e.1 a.prev).getD 0, hostPriority e.1⟩ a.phx
      prev := ains e.1 e.2 a.prev
      log := a.log ++ [(EvKind.phoenix, e.1)] }
  else if e.2 = 1 ∧ (alookup e.1 a.prev).getD 0 = 0 then
    { a with
      wrn := ains e.1 ⟨now, hostPriority e.1⟩ a.wrn
      prev := ains e.1 e.2 a.prev
      log := a.log ++ [(EvKind.warning, e.1)] }
  else
    { a with prev := ains e.1 e.2 a.prev }

/-- The whole per-entry loop. -/
def runEntries (now : ℚ) : P1 → List (String × ℤ) → P1
  | a, [] => a
  | a, e :: t => runEntries now (stepEntry now a e) t

/-! ### Host-set diffing (blackhole / spawn blocks) -/

/-- Loop state of the set-diff pass. -/
structure P2 where
  prev : List (String × ℤ)
  bh : List (String × BSData)
  sp : List (String × BSData)
  log : List (EvKind × String)
deriving DecidableEq

/-- The `disappeared` loop: store a blackhole capturing the position in the
old host list and purge the previous-state entry. -/
def runBlackholes (now : ℚ) (oldHosts : List HostState) : P2 → List String → P2
  | a, [] => a
  | a, n :: t =>
    runBlackholes now oldHosts
      { a with
        bh := ains n ⟨now, pyFindIdxHost n oldHosts, hostPriority n⟩ a.bh
        prev := aerase n a.prev
        log := a.log ++ [(EvKind.blackhole, n)] } t

/-- The `new_names` loop: store a spawn capturing the position in the
freshly sorted host list. -/
def runSpawns (now : ℚ) (sorted : List (String × ℤ)) : P2 → List String → P2
  | a, [] => a
  | a, n :: t =>
    runSpawns now sorted
      { a with
        sp := ains n ⟨now, pyFindIdxPair n sorted, hostPriority n⟩ a.sp
        log := a.log ++ [(EvKind.spawn, n)] } t

/-! ### TTL sweep, host rebuild, celebration -/

/-- The per-cycle TTL sweep over one event map (`now - v["start"] < 5.0`). -/
def sweepMap {α : Type} (getStart : α → ℚ) (now : ℚ) (m : List (String × α)) :
    List (String × α) :=
  m.filter fun e => decide (now - getStart e.2 < 5)

/-- Rebuild the `HostState` list from the sorted raw records
(`led_index = i`, zone color and priority freshly derived). -/
def mkHosts (sorted : List (String × ℤ)) : List HostState :=
  sorted.enum.map fun p => ⟨p.2.1, p.2.2, p.1, zoneColor p.2.1, hostPriority p.2.1⟩

/-- The creation branch of `_check_celebration`:
`if all_ok and self._had_problems and not self._celebration`. -/
def celebrationSet (st : Monitor) (now : ℚ) : Monitor :=
  if (st.hosts.all fun h => decide (h.state = 0)) && st.had_problems && st.celebration.isNone
  then { st with celebration := some now }
  else st

/-- `_check_celebration`: early return on an empty host list, then the
creation branch, then the `if not all_ok` latch-and-clear branch. -/
def checkCelebration (st : Monitor) (now : ℚ) : Monitor :=
  if st.hosts = [] then st
  else if !(st.hosts.all fun h => decide (h.state = 0)) then
    { celebrationSet st now with had_problems := true, celebration := none }
  else celebrationSet st now

/-! ### `_process_response` as one transition -/

/-- Stage 1 of `_process_response`: the per-entry loop, run over the parsed
response starting from the monitor's maps (and an empty event log). -/
def pollA1 (st : Monitor) (entries : List RawEntry) (now : ℚ) : P1 :=
  runEntries now ⟨st.previous_states, st.supernovas, st.phoenixes, st.warnings, []⟩
    (parseEntries entries)

/-- This cycle's raw host list, sorted by priority. -/
def pollSorted (entries : List RawEntry) : List (String × ℤ) :=
  sortByPriority (parseEntries entries)

/-- `current_names = {h["name"] for h in sorted_hosts}`. -/
def pollCurrent (entries : List RawEntry) : List String :=
  ((pollSorted entries).map Prod.fst).dedup

/-- Stage 2 of `_process_response`: the blackhole and spawn blocks, each
guarded by `if self._known_hosts:`. -/
def pollP2 (st : Monitor) (entries : List RawEntry) (now : ℚ) : P2 :=
  let p2₀ : P2 := ⟨(pollA1 st entries now).prev, st.blackholes, st.spawns, []⟩
  let p2₁ :=
    if st.known_hosts = [] then p2₀
    else runBlackholes now st.hosts p2₀
      (st.known_hosts.filter fun n => !slistMem n (pollCurrent entries))
  if st.known_hosts = [] then p2₁
  else runSpawns now (pollSorted entries) p2₁
    ((pollCurrent entries).filter fun n => !slistMem n st.known_hosts)

/-- `_process_response`, also returning the list of events written
(kind and host name, in program order): stage 1, stage 2, TTL sweep,
host-list rebuild, celebration check. -/
def processPollLog (st : Monitor) (entries : List RawEntry) (now : ℚ) :
    Monitor × List (EvKind × String) :=
  let a1 := pollA1 st entries now
  let p2 := pollP2 st entries now
  let stMid : Monitor :=
    { hosts := mkHosts (pollSorted entries)
      previous_states := p2.prev
      known_hosts := pollCurrent entries
      supernovas := sweepMap SNData.start now a1.sns
      phoenixes := sweepMap SNData.start now a1.phx
      warnings := sweepMap WData.start now a1.wrn
      blackholes := sweepMap BSData.start now p2.bh
      spawns := sweepMap BSData.start now p2.sp
      celebration := st.celebration
      had_problems := st.had_problems }
  (checkCelebration stMid now, a1.log ++ p2.log)

/-- `_process_response`, state part only. -/
def processPoll (st : Monitor) (entries : List RawEntry) (now : ℚ) : Monitor :=
  (processPollLog st entries now).1

/-! ### Snapshot accessors -/

/-- `_get_led_index_for_host`: first matching host's `led_index`, else 0. -/
def getLedIndexForHost (st : Monitor) (name : String) : ℕ :=
  match st.hosts.find? (fun h => decide (h.name = name)) with
  | some h => h.led_index
  | none => 0

/-- `get_animation_events`. -/
def getAnimationEvents (st : Monitor) : List AnimationEvent :=
  (st.supernovas.map fun e =>
      ⟨EvKind.supernova, e.1, e.2.start, getLedIndexForHost st e.1, some e.2.prev_state, e.2.priority⟩)
  ++ (st.phoenixes.map fun e =>
      ⟨EvKind.phoenix, e.1, e.2.start, getLedIndexForHost st e.1, some e.2.prev_state, e.2.priority⟩)
  ++ (st.warnings.map fun e =>
      ⟨EvKind.warning, e.1, e.2.start, getLedIndexForHost st e.1, none, e.2.priority⟩)
  ++ (st.blackholes.map fun e =>
      ⟨EvKind.blackhole, e.1, e.2.start, e.2.key_index, none, e.2.priority⟩)
  ++ (st.spawns.map fun e =>
      ⟨EvKind.spawn, e.1, e.2.start, e.2.key_index, none, e.2.priority⟩)
  ++ (match st.celebration with
      | some t => [⟨EvKind.celebration, "all", t, 0, none, 0⟩]
      | none => [])

/-- `get_hosts`: a list of freshly constructed `HostState` records, field by
field from the internal list. -/
def getHosts (st : Monitor) : List HostState :=
  st.hosts.map fun h => ⟨h.name, h.state, h.led_index, h.zone_color, h.priority⟩

/-! ### Fetch retry (`_fetch_and_update_hosts`) and update loop -/

/-- Result of one cycle: the new state on success, or the escalated
cycle-scoped `MonitoringError`; plus the backoff sleeps performed and the
number of attempts made. -/
def fetchRetry (oracle : ℕ → Option (List RawEntry)) (st : Monitor) (now : ℚ) :
    List ℕ → (Except Unit Monitor) × List ℚ × ℕ
  | [] => (Except.error (), [], 0)
  | a :: rest =>
    match oracle a with
    | some d => (Except.ok (processPoll st d now), [], a + 1)
    | none =>
      if a = 2 then (Except.error (), [], a + 1)
      else
        let r := fetchRetry oracle st now rest
        (r.1, (2 : ℚ) ^ a :: r.2.1, r.2.2)

/-- `_fetch_and_update_hosts`: `for attempt in range(3)` with backoff
`2 ** attempt` after each non-final failure. -/
def fetchAndUpdateHosts (oracle : ℕ → Option (List RawEntry)) (st : Monitor) (now : ℚ) :
    (Except Unit Monitor) × List ℚ × ℕ :=
  fetchRetry oracle st now [0, 1, 2]

/-- One pass of `_update_loop`'s body around the fetch: the `except` clause
catches the cycle error, leaves the state alone and keeps the loop running. -/
def updateLoopIteration (oracle : ℕ → Option (List RawEntry)) (st : Monitor) (now : ℚ)
    (running : Bool) : Monitor × Bool :=
  match (fetchAndUpdateHosts oracle st now).1 with
  | Except.ok st' => (st', running)
  | Except.error _ => (st, running)

/-! ### Lemmas about the per-entry loop -/

theorem stepEntry_lookup_ne (now : ℚ) (a : P1) (e : String × ℤ) {n : String} (h : e.1 ≠ n) :
    alookup n (stepEntry now a e).prev = alookup n a.prev ∧
    alookup n (stepEntry now a e).sns = alookup n a.sns ∧
    alookup n (stepEntry now a e).phx = alookup n a.phx ∧
    alookup n (stepEntry now a e).wrn = alookup n a.wrn := by
  have hn : n ≠ e.1 := Ne.symm h
  unfold stepEntry
  split_ifs <;> simp [alookup_ains_ne hn]

theorem runEntries_lookup_notMem (now : ℚ) (a : P1) (l : List (String × ℤ)) {n : String}
    (h : n ∉ l.map Prod.fst) :
    alookup n (runEntries now a l).prev = alookup n a.prev ∧
    alookup n (runEntries now a l).sns = alookup n a.sns ∧
    alookup n (runEntries now a l).phx = alookup n a.phx ∧
    alookup n (runEntries now a l).wrn = alookup n a.wrn := by
  induction l generalizing a with
  | nil => simp [runEntries]
  | cons e t ih =>
    simp only [List.map_cons, List.mem_cons, not_or] at h
    have hstep := stepEntry_lookup_ne now a e (fun he => h.1 he.symm)
    have hrec := ih (a := stepEntry now a e) h.2
    rw [runEntries]
    exact ⟨hrec.1.trans hstep.1, hrec.2.1.trans hstep.2.1,
      hrec.2.2.1.trans hstep.2.2.1, hrec.2.2.2.trans hstep.2.2.2⟩

/-- What one loop iteration leaves at its own entry's key. -/
theorem stepEntry_lookup_self (now : ℚ) (a : P1) (e : String × ℤ) :
    alookup e.1 (stepEntry now a e).prev = some e.2 ∧
    alookup e.1 (stepEntry now a e).sns =
      (if e.2 = 2 ∧ (alookup e.1 a.prev).getD 0 ≠ 2 then
        some ⟨now, (alookup e.1 a.prev).getD 0, hostPriority e.1⟩ else alookup e.1 a.sns) ∧
    alookup e.1 (stepEntry now a e).phx =
      (if e.2 = 0 ∧ (alookup e.1 a.prev).getD 0 > 0 then
        some ⟨now, (alookup e.1 a.prev).getD 0, hostPriority e.1⟩ else alookup e.1 a.phx) ∧
    alookup e.1 (stepEntry now a e).wrn =
      (if e.2 = 1 ∧ (alookup e.1 a.prev).getD 0 = 0 then
        some ⟨now, hostPriority e.1⟩ else alookup e.1 a.wrn) := by
  unfold stepEntry
  split_ifs <;>
    first
      | (exfalso; omega)
      | (refine ⟨alookup_ains_self .., ?_, ?_, ?_⟩ <;>
          first
            | rfl
            | exact alookup_ains_self ..)

/-- What the per-entry loop leaves at the key of a processed entry, when
entry names are distinct: `previousState` set unconditionally, and each of
the three event maps written exactly under its transition condition, with
`previousState` the value looked up before the poll. -/
theorem runEntries_lookup_mem (now : ℚ) (a : P1) (l : List (String × ℤ)) {n : String} {s : ℤ}
    (hnd : (l.map Prod.fst).Nodup) (hm : (n, s) ∈ l) :
    alookup n (runEntries now a l).prev = some s ∧
    alookup n (runEntries now a l).sns =
      (if s = 2 ∧ (alookup n a.prev).getD 0 ≠ 2 then
        some ⟨now, (alookup n a.prev).getD 0, hostPriority n⟩ else alookup n a.sns) ∧
    alookup n (runEntries now a l).phx =
      (if s = 0 ∧ (alookup n a.prev).getD 0 > 0 then
        some ⟨now, (alookup n a.prev).getD 0, hostPriority n⟩ else alookup n a.phx) ∧
    alookup n (runEntries now a l).wrn =
      (if s = 1 ∧ (alookup n a.prev).getD 0 = 0 then
        some ⟨now, hostPriority n⟩ else alookup n a.wrn) := by
  induction l generalizing a with
  | nil => simp at hm
  | cons e t ih =>
    simp only [List.map_cons, List.nodup_cons] at hnd
    rcases List.mem_cons.mp hm with h1 | h1
    · -- the head entry is ours; the tail never touches our key again
      have he1 : e.1 = n := by rw [← h1]
      have he2 : e.2 = s := by rw [← h1]
      subst he1
      subst he2
      have hnot : e.1 ∉ t.map Prod.fst := hnd.1
      rw [runEntries]
      have hframe := runEntries_lookup_notMem now (stepEntry now a e) t hnot
      have hself := stepEntry_lookup_self now a e
      exact ⟨hframe.1.trans hself.1, hframe.2.1.trans hself.2.1,
        hframe.2.2.1.trans hself.2.2.1, hframe.2.2.2.trans hself.2.2.2⟩
    · -- our entry is in the tail; the head has a different name
      have hne : e.1 ≠ n := by
        intro he
        exact hnd.1 (he ▸ List.mem_map.mpr ⟨(n, s), h1, rfl⟩)
      have hstep := stepEntry_lookup_ne now a e hne
      rw [runEntries]
      have := ih (a := stepEntry now a e) hnd.2 h1
      rw [hstep.1, hstep.2.1, hstep.2.2.1, hstep.2.2.2] at this
      exact this

/-- If every entry's state already equals its stored previous state, the
per-entry loop writes no event. -/
theorem runEntries_log_stable (now : ℚ) (a : P1) (l : List (String × ℤ))
    (hnd : (l.map Prod.fst).Nodup)
    (hinv : ∀ p ∈ l, alookup p.1 a.prev = some p.2) :
    (runEntries now a l).log = a.log := by
  induction l generalizing a with
  | nil => simp [runEntries]
  | cons e t ih =>
    simp only [List.map_cons, List.nodup_cons] at hnd
    have hp : (alookup e.1 a.prev).getD 0 = e.2 := by
      rw [hinv e (List.mem_cons_self _ _)]
      rfl
    have hstep : stepEntry now a e = { a with prev := ains e.1 e.2 a.prev } := by
      unfold stepEntry
      rw [hp]
      split_ifs with h₁ h₂ h₃ <;> first
        | rfl
        | omega
    rw [runEntries, hstep]
    refine ih _ hnd.2 ?_
    intro p hpmem
    have hne : p.1 ≠ e.1 := by
      intro he
      exact hnd.1 (he ▸ List.mem_map.mpr ⟨p, hpmem, rfl⟩)
    simp only
    rw [alookup_ains_ne hne]
    exact hinv p (List.mem_cons_of_mem _ hpmem)

/-! ### Lemmas about the host-set diff loops -/

theorem runBlackholes_sp (now : ℚ) (oldHosts : List HostState) (a : P2) (l : List String) :
    (runBlackholes now oldHosts a l).sp = a.sp := by
  induction l generalizing a with
  | nil => rfl
  | cons n t ih => rw [runBlackholes, ih]

theorem runBlackholes_lookup_notMem (now : ℚ) (oldHosts : List HostState) (a : P2)
    (l : List String) {n : String} (h : n ∉ l) :
    alookup n (runBlackholes now oldHosts a l).bh = alookup n a.bh ∧
    alookup n (runBlackholes now oldHosts a l).prev = alookup n a.prev := by
  induction l generalizing a with
  | nil => exact ⟨rfl, rfl⟩
  | cons m t ih =>
    simp only [List.mem_cons, not_or] at h
    have hne : m ≠ n := fun hh => h.1 hh.symm
    rw [runBlackholes]
    refine ⟨(ih _ h.2).1.trans ?_, (ih _ h.2).2.trans ?_⟩
    · exact alookup_ains_ne (Ne.symm hne) _ _
    · exact alookup_aerase_ne (Ne.symm hne) _

theorem runBlackholes_lookup_mem (now : ℚ) (oldHosts : List HostState) (a : P2)
    (l : List String) {n : String} (hnd : l.Nodup) (hm : n ∈ l)
    (hprev : (akeys a.prev).Nodup) :
    alookup n (runBlackholes now oldHosts a l).bh =
      some ⟨now, pyFindIdxHost n oldHosts, hostPriority n⟩ ∧
    alookup n (runBlackholes now oldHosts a l).prev = none := by
  induction l generalizing a with
  | nil => simp at hm
  | cons m t ih =>
    simp only [List.nodup_cons] at hnd
    rcases List.mem_cons.mp hm with rfl | h1
    · rw [runBlackholes]
      constructor
      · exact (runBlackholes_lookup_notMem now oldHosts _ t hnd.1).1.trans
          (alookup_ains_self ..)
      · exact (runBlackholes_lookup_notMem now oldHosts _ t hnd.1).2.trans
          (alookup_aerase_self _ _ hprev)
    · have hne : m ≠ n := fun hh => hnd.1 (hh ▸ h1)
      rw [runBlackholes]
      exact ih _ hnd.2 h1 (nodup_akeys_aerase _ _ hprev)

theorem runBlackholes_log (now : ℚ) (oldHosts : List HostState) (a : P2) (l : List String) :
    (runBlackholes now oldHosts a l).log = a.log ++ l.map fun n => (EvKind.blackhole, n) := by
  induction l generalizing a with
  | nil => simp [runBlackholes]
  | cons m t ih =>
    rw [runBlackholes, ih]
    simp

theorem runSpawns_bh_prev (now : ℚ) (sorted : List (String × ℤ)) (a : P2) (l : List String) :
    (runSpawns now sorted a l).bh = a.bh ∧ (runSpawns now sorted a l).prev = a.prev := by
  induction l generalizing a with
  | nil => exact ⟨rfl, rfl⟩
  | cons n t ih => rw [runSpawns]; exact ih _

theorem runSpawns_lookup_notMem (now : ℚ) (sorted : List (String × ℤ)) (a : P2)
    (l : List String) {n : String} (h : n ∉ l) :
    alookup n (runSpawns now sorted a l).sp = alookup n a.sp := by
  induction l generalizing a with
  | nil => rfl
  | cons m t ih =>
    simp only [List.mem_cons, not_or] at h
    have hne : m ≠ n := fun hh => h.1 hh.symm
    rw [runSpawns]
    exact (ih _ h.2).trans (alookup_ains_ne (Ne.symm hne) _ _)

theorem runSpawns_lookup_mem (now : ℚ) (sorted : List (String × ℤ)) (a : P2)
    (l : List String) {n : String} (hnd : l.Nodup) (hm : n ∈ l) :
    alookup n (runSpawns now sorted a l).sp =
      some ⟨now, pyFindIdxPair n sorted, hostPriority n⟩ := by
  induction l generalizing a with
  | nil => simp at hm
  | cons m t ih =>
    simp only [List.nodup_cons] at hnd
    rcases List.mem_cons.mp hm with rfl | h1
    · rw [runSpawns]
      rw [runSpawns_lookup_notMem now sorted _ t hnd.1]
      exact alookup_ains_self ..
    · rw [runSpawns]
      exact ih (a := _) hnd.2 h1

theorem runSpawns_log (now : ℚ) (sorted : List (String × ℤ)) (a : P2) (l : List String) :
    (runSpawns now sorted a l).log = a.log ++ l.map fun n => (EvKind.spawn, n) := by
  induction l generalizing a with
  | nil => simp [runSpawns]
  | cons m t ih =>
    rw [runSpawns, ih]
    simp

/-! ### Sweep and host-list lemmas -/

theorem alookup_sweepMap {α : Type} (getStart : α → ℚ) (now : ℚ) (m : List (String × α))
    (n : String) (hnd : (akeys m).Nodup) :
    alookup n (sweepMap getStart now m) =
      (alookup n m).bind fun v => if now - getStart v < 5 then some v else none := by
  rw [sweepMap, alookup_filter _ _ _ hnd]
  cases alookup n m with
  | none => rfl
  | some v =>
    simp only [Option.some_bind]
    by_cases h : now - getStart v < 5 <;> simp [h]

theorem mem_sweepMap {α : Type} (getStart : α → ℚ) (now : ℚ) (m : List (String × α))
    (e : String × α) :
    e ∈ sweepMap getStart now m ↔ e ∈ m ∧ now - getStart e.2 < 5 := by
  simp [sweepMap, List.mem_filter]

/-- Host records rebuilt from the sorted list: position `i` carries the
`i`-th sorted record's name and state, with `led_index = i`. -/
theorem mkHosts_getElem (sorted : List (String × ℤ)) (i : ℕ) :
    (mkHosts sorted)[i]? =
      (sorted[i]?).map fun p => ⟨p.1, p.2, i, zoneColor p.1, hostPriority p.1⟩ := by
  rw [mkHosts, List.getElem?_map, List.getElem?_enum]
  cases sorted[i]? <;> rfl

/-! ### Structural lemmas about `_process_response` -/

theorem checkCelebration_fields (st : Monitor) (now : ℚ) :
    (checkCelebration st now).hosts = st.hosts ∧
    (checkCelebration st now).previous_states = st.previous_states ∧
    (checkCelebration st now).known_hosts = st.known_hosts ∧
    (checkCelebration st now).supernovas = st.supernovas ∧
    (checkCelebration st now).phoenixes = st.phoenixes ∧
    (checkCelebration st now).warnings = st.warnings ∧
    (checkCelebration st now).blackholes = st.blackholes ∧
    (checkCelebration st now).spawns = st.spawns := by
  unfold checkCelebration celebrationSet
  split_ifs <;> simp

theorem processPoll_fields (st : Monitor) (entries : List RawEntry) (now : ℚ) :
    (processPoll st entries now).hosts = mkHosts (pollSorted entries) ∧
    (processPoll st entries now).previous_states = (pollP2 st entries now).prev ∧
    (processPoll st entries now).known_hosts = pollCurrent entries ∧
    (processPoll st entries now).supernovas =
      sweepMap SNData.start now (pollA1 st entries now).sns ∧
    (processPoll st entries now).phoenixes =
      sweepMap SNData.start now (pollA1 st entries now).phx ∧
    (processPoll st entries now).warnings =
      sweepMap WData.start now (pollA1 st entries now).wrn ∧
    (processPoll st entries now).blackholes =
      sweepMap BSData.start now (pollP2 st entries now).bh ∧
    (processPoll st entries now).spawns =
      sweepMap BSData.start now (pollP2 st entries now).sp :=
  checkCelebration_fields
    { hosts := mkHosts (pollSorted entries)
      previous_states := (pollP2 st entries now).prev
      known_hosts := pollCurrent entries
      supernovas := sweepMap SNData.start now (pollA1 st entries now).sns
      phoenixes := sweepMap SNData.start now (pollA1 st entries now).phx
      warnings := sweepMap WData.start now (pollA1 st entries now).wrn
      blackholes := sweepMap BSData.start now (pollP2 st entries now).bh
      spawns := sweepMap BSData.start now (pollP2 st entries now).sp
      celebration := st.celebration
      had_problems := st.had_problems } now

/-! ### Key well-formedness is preserved by a poll -/

theorem stepEntry_nodup (now : ℚ) (a : P1) (e : String × ℤ)
    (h1 : (akeys a.prev).Nodup) (h2 : (akeys a.sns).Nodup)
    (h3 : (akeys a.phx).Nodup) (h4 : (akeys a.wrn).Nodup) :
    (akeys (stepEntry now a e).prev).Nodup ∧ (akeys (stepEntry now a e).sns).Nodup ∧
    (akeys (stepEntry now a e).phx).Nodup ∧ (akeys (stepEntry now a e).wrn).Nodup := by
  unfold stepEntry
  split_ifs <;>
    exact ⟨nodup_akeys_ains _ _ _ h1, by first | exact nodup_akeys_ains _ _ _ h2 | exact h2,
      by first | exact nodup_akeys_ains _ _ _ h3 | exact h3,
      by first | exact nodup_akeys_ains _ _ _ h4 | exact h4⟩

theorem runEntries_nodup (now : ℚ) (a : P1) (l : List (String × ℤ))
    (h1 : (akeys a.prev).Nodup) (h2 : (akeys a.sns).Nodup)
    (h3 : (akeys a.phx).Nodup) (h4 : (akeys a.wrn).Nodup) :
    (akeys (runEntries now a l).prev).Nodup ∧ (akeys (runEntries now a l).sns).Nodup ∧
    (akeys (runEntries now a l).phx).Nodup ∧ (akeys (runEntries now a l).wrn).Nodup := by
  induction l generalizing a with
  | nil => exact ⟨h1, h2, h3, h4⟩
  | cons e t ih =>
    rw [runEntries]
    have hs := stepEntry_nodup now a e h1 h2 h3 h4
    exact ih _ hs.1 hs.2.1 hs.2.2.1 hs.2.2.2

theorem runBlackholes_nodup (now : ℚ) (oldHosts : List HostState) (a : P2) (l : List String)
    (h1 : (akeys a.prev).Nodup) (h2 : (akeys a.bh).Nodup) :
    (akeys (runBlackholes now oldHosts a l).prev).Nodup ∧
    (akeys (runBlackholes now oldHosts a l).bh).Nodup := by
  induction l generalizing a with
  | nil => exact ⟨h1, h2⟩
  | cons n t ih =>
    rw [runBlackholes]
    exact ih _ (nodup_akeys_aerase _ _ h1) (nodup_akeys_ains _ _ _ h2)

theorem runSpawns_nodup (now : ℚ) (sorted : List (String × ℤ)) (a : P2) (l : List String)
    (h1 : (akeys a.sp).Nodup) :
    (akeys (runSpawns now sorted a l).sp).Nodup := by
  induction l generalizing a with
  | nil => exact h1
  | cons n t ih =>
    rw [runSpawns]
    exact ih _ (nodup_akeys_ains _ _ _ h1)

theorem pollA1_nodup (st : Monitor) (entries : List RawEntry) (now : ℚ) (hwf : MonitorWF st) :
    (akeys (pollA1 st entries now).prev).Nodup ∧ (akeys (pollA1 st entries now).sns).Nodup ∧
    (akeys (pollA1 st entries now).phx).Nodup ∧ (akeys (pollA1 st entries now).wrn).Nodup :=
  runEntries_nodup now _ _ hwf.1 hwf.2.1 hwf.2.2.1 hwf.2.2.2.1

theorem pollP2_nodup (st : Monitor) (entries : List RawEntry) (now : ℚ) (hwf : MonitorWF st) :
    (akeys (pollP2 st entries now).prev).Nodup ∧ (akeys (pollP2 st entries now).bh).Nodup ∧
    (akeys (pollP2 st entries now).sp).Nodup := by
  have ha1 := pollA1_nodup st entries now hwf
  unfold pollP2
  split_ifs with h
  · exact ⟨ha1.1, hwf.2.2.2.2.1, hwf.2.2.2.2.2.1⟩
  · have hb := runBlackholes_nodup now st.hosts
      ⟨(pollA1 st entries now).prev, st.blackholes, st.spawns, []⟩
      (st.known_hosts.filter fun n => !slistMem n (pollCurrent entries))
      ha1.1 hwf.2.2.2.2.1
    refine ⟨?_, ?_, ?_⟩
    · rw [(runSpawns_bh_prev ..).2]
      exact hb.1
    · rw [(runSpawns_bh_prev ..).1]
      exact hb.2
    · refine runSpawns_nodup _ _ _ _ ?_
      rw [runBlackholes_sp]
      exact hwf.2.2.2.2.2.1

theorem processPoll_WF (st : Monitor) (entries : List RawEntry) (now : ℚ)
    (hwf : MonitorWF st) : MonitorWF (processPoll st entries now) := by
  obtain ⟨hh, hp, hk, hs, hx, hw, hb, hsp⟩ := processPoll_fields st entries now
  have ha1 := pollA1_nodup st entries now hwf
  have hp2 := pollP2_nodup st entries now hwf
  refine ⟨?_, ?_, ?_, ?_, ?_, ?_, ?_⟩
  · rw [hp]; exact hp2.1
  · rw [hs]; exact nodup_akeys_filter _ _ ha1.2.1
  · rw [hx]; exact nodup_akeys_filter _ _ ha1.2.2.1
  · rw [hw]; exact nodup_akeys_filter _ _ ha1.2.2.2
  · rw [hb]; exact nodup_akeys_filter _ _ hp2.2.1
  · rw [hsp]; exact nodup_akeys_filter _ _ hp2.2.2
  · rw [hk]; exact List.nodup_dedup _

/-! ### Exactly-one-entry counting -/

/-- Number of entries stored under a key. -/
def keyCount {α : Type} (n : String) (m : List (String × α)) : ℕ :=
  (m.filter fun e => decide (e.1 = n)).length

theorem keyCount_eq_zero {α : Type} {n : String} {m : List (String × α)}
    (h : n ∉ akeys m) : keyCount n m = 0 := by
  induction m with
  | nil => rfl
  | cons e t ih =>
    simp only [akeys, List.map_cons, List.mem_cons, not_or] at h
    have hdec : e.1 ≠ n := fun hh => h.1 hh.symm
    rw [keyCount, List.filter_cons_of_neg (by simp [hdec])]
    exact ih h.2

/-- With no duplicate keys, a successful lookup means exactly one stored
entry under that key. -/
theorem keyCount_eq_one {α : Type} {n : String} {v : α} {m : List (String × α)}
    (hnd : (akeys m).Nodup) (h : alookup n m = some v) : keyCount n m = 1 := by
  induction m with
  | nil => simp [alookup] at h
  | cons e t ih =>
    obtain ⟨k₀, v₀⟩ := e
    simp only [akeys, List.map_cons, List.nodup_cons] at hnd
    by_cases hk : k₀ = n
    · subst hk
      rw [keyCount, List.filter_cons_of_pos (by simp)]
      have h0 : keyCount k₀ t = 0 := keyCount_eq_zero hnd.1
      rw [keyCount] at h0
      simp [h0]
    · rw [alookup_cons_ne hk] at h
      rw [keyCount, List.filter_cons_of_neg (by simp [hk])]
      exact ih hnd.2 h

/-! ### Claim theorems -/

/-- **C1.** For every host `(name, state)` of a poll cycle with distinct
host names, with `previousState` looked up in the previous-state map
(default OK = 0): `state = CRIT(2)` and `previousState ≠ CRIT` stores
exactly one supernova carrying `prev_state = previousState`; otherwise
`state = OK(0)` and `previousState > OK` stores exactly one phoenix
carrying `prev_state = previousState`; otherwise `state = WARN(1)` and
`previousState = OK` stores exactly one warning; in all other cases none
of the three maps gains an entry for that host (the TTL sweep may only
drop an old one). -/
theorem claim_C1 (st : Monitor) (entries : List RawEntry) (now : ℚ)
    (hwf : MonitorWF st)
    (hnd : ((parseEntries entries).map Prod.fst).Nodup)
    (name : String) (state : ℤ)
    (hmem : (name, state) ∈ parseEntries entries) :
    ((state = 2 ∧ (alookup name st.previous_states).getD 0 ≠ 2) →
      alookup name (processPoll st entries now).supernovas =
        some ⟨now, (alookup name st.previous_states).getD 0, hostPriority name⟩ ∧
      keyCount name (processPoll st entries now).supernovas = 1 ∧
      alookup name (processPoll st entries now).phoenixes =
        (alookup name st.phoenixes).bind fun v => if now - v.start < 5 then some v else none) ∧
    (¬(state = 2 ∧ (alookup name st.previous_states).getD 0 ≠ 2) →
      (state = 0 ∧ (alookup name st.previous_states).getD 0 > 0) →
      alookup name (processPoll st entries now).phoenixes =
        some ⟨now, (alookup name st.previous_states).getD 0, hostPriority name⟩ ∧
      keyCount name (processPoll st entries now).phoenixes = 1 ∧
      alookup name (processPoll st entries now).supernovas =
        (alookup name st.supernovas).bind fun v => if now - v.start < 5 then some v else none) ∧
    (¬(state = 2 ∧ (alookup name st.previous_states).getD 0 ≠ 2) →
      ¬(state = 0 ∧ (alookup name st.previous_states).getD 0 > 0) →
      (state = 1 ∧ (alookup name st.previous_states).getD 0 = 0) →
      alookup name (processPoll st entries now).warnings =
        some ⟨now, hostPriority name⟩ ∧
      keyCount name (processPoll st entries now).warnings = 1) ∧
    (¬(state = 2 ∧ (alookup name st.previous_states).getD 0 ≠ 2) →
      ¬(state = 0 ∧ (alookup name st.previous_states).getD 0 > 0) →
      ¬(state = 1 ∧ (alookup name st.previous_states).getD 0 = 0) →
      (alookup name (processPoll st entries now).supernovas =
        (alookup name st.supernovas).bind fun v => if now - v.start < 5 then some v else none) ∧
      (alookup name (processPoll st entries now).phoenixes =
        (alookup name st.phoenixes).bind fun v => if now - v.start < 5 then some v else none) ∧
      (alookup name (processPoll st entries now).warnings =
        (alookup name st.warnings).bind fun v => if now - v.start < 5 then some v else none)) := by
  have hfld := processPoll_fields st entries now
  have ha1nd := pollA1_nodup st entries now hwf
  have hwf' := processPoll_WF st entries now hwf
  have hrun := runEntries_lookup_mem now
    ⟨st.previous_states, st.supernovas, st.phoenixes, st.warnings, []⟩
    (parseEntries entries) hnd hmem
  dsimp only at hrun
  have hsns : alookup name (processPoll st entries now).supernovas =
      (alookup name (pollA1 st entries now).sns).bind
        fun v => if now - v.start < 5 then some v else none := by
    rw [hfld.2.2.2.1, alookup_sweepMap _ _ _ _ ha1nd.2.1]
  have hphx : alookup name (processPoll st entries now).phoenixes =
      (alookup name (pollA1 st entries now).phx).bind
        fun v => if now - v.start < 5 then some v else none := by
    rw [hfld.2.2.2.2.1, alookup_sweepMap _ _ _ _ ha1nd.2.2.1]
  have hwrn : alookup name (processPoll st entries now).warnings =
      (alookup name (pollA1 st entries now).wrn).bind
        fun v => if now - v.start < 5 then some v else none := by
    rw [hfld.2.2.2.2.2.1, alookup_sweepMap _ _ _ _ ha1nd.2.2.2]
  unfold pollA1 at hsns hphx hwrn
  have hkeep : ∀ pr : ℤ, ((some (⟨now, pr, hostPriority name⟩ : SNData)).bind
      fun v => if now - v.start < 5 then some v else none) =
      some (⟨now, pr, hostPriority name⟩ : SNData) := by
    intro pr
    simp only [Option.some_bind]
    rw [if_pos (by rw [sub_self]; norm_num)]
  have hkeepw : ((some (⟨now, hostPriority name⟩ : WData)).bind
      fun v => if now - v.start < 5 then some v else none) =
      some (⟨now, hostPriority name⟩ : WData) := by
    simp only [Option.some_bind]
    rw [if_pos (by rw [sub_self]; norm_num)]
  refine ⟨?_, ?_, ?_, ?_⟩
  · intro hc1
    have hl : alookup name (processPoll st entries now).supernovas =
        some ⟨now, (alookup name st.previous_states).getD 0, hostPriority name⟩ := by
      rw [hsns, hrun.2.1, if_pos hc1, hkeep]
    refine ⟨hl, keyCount_eq_one hwf'.2.1 hl, ?_⟩
    rw [hphx, hrun.2.2.1, if_neg (by rintro ⟨h0, -⟩; omega)]
  · intro hc1 hc2
    have hl : alookup name (processPoll st entries now).phoenixes =
        some ⟨now, (alookup name st.previous_states).getD 0, hostPriority name⟩ := by
      rw [hphx, hrun.2.2.1, if_pos hc2, hkeep]
    refine ⟨hl, keyCount_eq_one hwf'.2.2.1 hl, ?_⟩
    rw [hsns, hrun.2.1, if_neg hc1]
  · intro hc1 hc2 hc3
    have hl : alookup name (processPoll st entries now).warnings =
        some ⟨now, hostPriority name⟩ := by
      rw [hwrn, hrun.2.2.2, if_pos hc3, hkeepw]
    exact ⟨hl, keyCount_eq_one hwf'.2.2.2.1 hl⟩
  · intro hc1 hc2 hc3
    refine ⟨?_, ?_, ?_⟩
    · rw [hsns, hrun.2.1, if_neg hc1]
    · rw [hphx, hrun.2.2.1, if_neg hc2]
    · rw [hwrn, hrun.2.2.2, if_neg hc3]

/-- **C2.** When the known-host set is non-empty (i.e. not the very first
cycle): every known name missing from the current poll gets exactly one
blackhole capturing its position in the prior host list (which is its
prior cell index, since every poll-built list stores its position as
`led_index` — last conjunct) and is purged from the previous-state map;
every current name not previously known gets exactly one spawn capturing
its first index in the priority-sorted list, which is exactly the
`led_index` of its new record; afterwards the known-host set equals the
poll's name set. -/
theorem claim_C2 (st : Monitor) (entries : List RawEntry) (now : ℚ)
    (hwf : MonitorWF st) (hkn : st.known_hosts ≠ []) :
    (∀ name ∈ st.known_hosts, name ∉ pollCurrent entries →
      alookup name (processPoll st entries now).blackholes =
        some ⟨now, pyFindIdxHost name st.hosts, hostPriority name⟩ ∧
      keyCount name (processPoll st entries now).blackholes = 1 ∧
      alookup name (processPoll st entries now).previous_states = none) ∧
    (∀ name ∈ pollCurrent entries, name ∉ st.known_hosts →
      alookup name (processPoll st entries now).spawns =
        some ⟨now, pyFindIdxPair name (pollSorted entries), hostPriority name⟩ ∧
      keyCount name (processPoll st entries now).spawns = 1 ∧
      ∃ h : HostState,
        (processPoll st entries now).hosts[pyFindIdxPair name (pollSorted entries)]? = some h ∧
        h.name = name ∧ h.led_index = pyFindIdxPair name (pollSorted entries)) ∧
    (∀ x, x ∈ (processPoll st entries now).known_hosts ↔
      x ∈ (parseEntries entries).map Prod.fst) ∧
    (∀ (i : ℕ) (h : HostState), (processPoll st entries now).hosts[i]? = some h →
      h.led_index = i) := by
  have hfld := processPoll_fields st entries now
  have ha1nd := pollA1_nodup st entries now hwf
  have hwf' := processPoll_WF st entries now hwf
  have hp2 : pollP2 st entries now =
      runSpawns now (pollSorted entries)
        (runBlackholes now st.hosts
          ⟨(pollA1 st entries now).prev, st.blackholes, st.spawns, []⟩
          (st.known_hosts.filter fun n => !slistMem n (pollCurrent entries)))
        ((pollCurrent entries).filter fun n => !slistMem n st.known_hosts) := by
    unfold pollP2
    rw [if_neg hkn, if_neg hkn]
  refine ⟨?_, ?_, ?_, ?_⟩
  · intro name hknown hcur
    have hmemf : name ∈ st.known_hosts.filter fun n => !slistMem n (pollCurrent entries) := by
      refine List.mem_filter.mpr ⟨hknown, ?_⟩
      simp only [Bool.not_eq_eq_eq_not, Bool.not_true]
      rw [← Bool.not_eq_true]
      rw [slistMem_iff]
      exact hcur
    have hndf : (st.known_hosts.filter fun n => !slistMem n (pollCurrent entries)).Nodup :=
      hwf.2.2.2.2.2.2.filter _
    have hbh := runBlackholes_lookup_mem now st.hosts
      ⟨(pollA1 st entries now).prev, st.blackholes, st.spawns, []⟩
      (st.known_hosts.filter fun n => !slistMem n (pollCurrent entries))
      hndf hmemf ha1nd.1
    have hl : alookup name (processPoll st entries now).blackholes =
        some ⟨now, pyFindIdxHost name st.hosts, hostPriority name⟩ := by
      rw [hfld.2.2.2.2.2.2.1, hp2, alookup_sweepMap _ _ _ _ ?_, (runSpawns_bh_prev ..).1,
        hbh.1]
      · simp only [Option.some_bind]
        rw [if_pos (by rw [sub_self]; norm_num)]
      · rw [(runSpawns_bh_prev ..).1]
        exact (runBlackholes_nodup now st.hosts _ _ ha1nd.1 hwf.2.2.2.2.1).2
    refine ⟨hl, keyCount_eq_one hwf'.2.2.2.2.1 hl, ?_⟩
    rw [hfld.2.1, hp2, (runSpawns_bh_prev ..).2, hbh.2]
  · intro name hcur hknown
    have hmemf : name ∈ (pollCurrent entries).filter fun n => !slistMem n st.known_hosts := by
      refine List.mem_filter.mpr ⟨hcur, ?_⟩
      simp only [Bool.not_eq_eq_eq_not, Bool.not_true]
      rw [← Bool.not_eq_true]
      rw [slistMem_iff]
      exact hknown
    have hndf : ((pollCurrent entries).filter fun n => !slistMem n st.known_hosts).Nodup :=
      (List.nodup_dedup _).filter _
    have hsp := runSpawns_lookup_mem now (pollSorted entries)
      (runBlackholes now st.hosts
        ⟨(pollA1 st entries now).prev, st.blackholes, st.spawns, []⟩
        (st.known_hosts.filter fun n => !slistMem n (pollCurrent entries)))
      ((pollCurrent entries).filter fun n => !slistMem n st.known_hosts)
      hndf hmemf
    have hl : alookup name (processPoll st entries now).spawns =
        some ⟨now, pyFindIdxPair name (pollSorted entries), hostPriority name⟩ := by
      rw [hfld.2.2.2.2.2.2.2, hp2, alookup_sweepMap _ _ _ _ ?_, hsp]
      · simp only [Option.some_bind]
        rw [if_pos (by rw [sub_self]; norm_num)]
      · refine runSpawns_nodup _ _ _ _ ?_
        rw [runBlackholes_sp]
        exact hwf.2.2.2.2.2.1
    refine ⟨hl, keyCount_eq_one hwf'.2.2.2.2.2.1 hl, ?_⟩
    have hnames : name ∈ (pollSorted entries).map Prod.fst := List.mem_dedup.mp hcur
    obtain ⟨hlt, hname⟩ := pyFindIdxPair_spec name (pollSorted entries) hnames
    refine ⟨⟨((pollSorted entries).get ⟨_, hlt⟩).1,
        ((pollSorted entries).get ⟨_, hlt⟩).2,
        pyFindIdxPair name (pollSorted entries),
        zoneColor ((pollSorted entries).get ⟨_, hlt⟩).1,
        hostPriority ((pollSorted entries).get ⟨_, hlt⟩).1⟩, ?_, hname, rfl⟩
    rw [hfld.1, mkHosts_getElem, List.getElem?_eq_getElem hlt]
    rfl
  · intro x
    rw [hfld.2.2.1]
    unfold pollCurrent
    rw [List.mem_dedup]
    exact ((List.perm_insertionSort _ (parseEntries entries)).map Prod.fst).mem_iff
  · intro i h hgt
    rw [hfld.1, mkHosts_getElem] at hgt
    cases hs : (pollSorted entries)[i]? with
    | none =>
      rw [hs] at hgt
      simp at hgt
    | some p =>
      rw [hs] at hgt
      obtain rfl : (⟨p.1, p.2, i, zoneColor p.1, hostPriority p.1⟩ : HostState) = h :=
        Option.some.inj (by simpa using hgt)
      rfl

theorem processPollLog_snd (st : Monitor) (entries : List RawEntry) (now : ℚ) :
    (processPollLog st entries now).2 =
      (pollA1 st entries now).log ++ (pollP2 st entries now).log := rfl

/-- **C3.** After a poll with distinct host names, the previous-state map
sends every polled host to the state observed in that poll; consequently a
second poll of the same data, at any later instant, writes zero supernova,
phoenix, warning, blackhole, or spawn events. -/
theorem claim_C3 (st : Monitor) (entries : List RawEntry) (now now₂ : ℚ)
    (hnd : ((parseEntries entries).map Prod.fst).Nodup) :
    (∀ p ∈ parseEntries entries,
      alookup p.1 (processPoll st entries now).previous_states = some p.2) ∧
    (processPollLog (processPoll st entries now) entries now₂).2 = [] := by
  have hfld := processPoll_fields st entries now
  have hprev : ∀ p ∈ parseEntries entries,
      alookup p.1 (processPoll st entries now).previous_states = some p.2 := by
    intro p hp
    obtain ⟨n, s⟩ := p
    have hrun := runEntries_lookup_mem now
      ⟨st.previous_states, st.supernovas, st.phoenixes, st.warnings, []⟩
      (parseEntries entries) hnd hp
    rw [hfld.2.1]
    unfold pollP2
    split_ifs with hk
    · exact hrun.1
    · rw [(runSpawns_bh_prev ..).2]
      have hnotmem : n ∉ st.known_hosts.filter fun m => !slistMem m (pollCurrent entries) := by
        intro hmem
        have h2 := (List.mem_filter.mp hmem).2
        have hsm : slistMem n (pollCurrent entries) = true := by
          rw [slistMem_iff]
          unfold pollCurrent
          rw [List.mem_dedup]
          exact ((List.perm_insertionSort _ (parseEntries entries)).map Prod.fst).mem_iff.mpr
            (List.mem_map.mpr ⟨(n, s), hp, rfl⟩)
        rw [hsm] at h2
        simp at h2
      rw [(runBlackholes_lookup_notMem now st.hosts _ _ hnotmem).2]
      exact hrun.1
  refine ⟨hprev, ?_⟩
  have hlog1 : (pollA1 (processPoll st entries now) entries now₂).log = [] :=
    runEntries_log_stable now₂ _ _ hnd fun p hp => hprev p hp
  have hlog2 : (pollP2 (processPoll st entries now) entries now₂).log = [] := by
    unfold pollP2
    split_ifs with hk
    · rfl
    · have hd : ((processPoll st entries now).known_hosts.filter
          fun m => !slistMem m (pollCurrent entries)) = [] := by
        rw [List.filter_eq_nil_iff]
        intro a ha
        rw [hfld.2.2.1] at ha
        have hsm : slistMem a (pollCurrent entries) = true := (slistMem_iff _ _).mpr ha
        simp [hsm]
      have ha : ((pollCurrent entries).filter
          fun m => !slistMem m (processPoll st entries now).known_hosts) = [] := by
        rw [List.filter_eq_nil_iff]
        intro a ha
        have : a ∈ (processPoll st entries now).known_hosts := by
          rw [hfld.2.2.1]
          exact ha
        rw [← slistMem_iff] at this
        simp [this]
      rw [hd, ha]
      rfl
  rw [processPollLog_snd, hlog1, hlog2]
  rfl

/-- **C4.** A fetch cycle makes at most 3 attempts against the status
source; when attempts 0, 1 and 2 all fail with a transport error, it
sleeps 1s after the first failure and 2s after the second, escalates a
cycle-scoped monitoring error, and the update loop's handler catches it:
the whole monitor state (hosts, previous states, known hosts and every
event map) is unchanged and the loop keeps running. -/
theorem claim_C4 (oracle : ℕ → Option (List RawEntry)) (st : Monitor) (now : ℚ) :
    (fetchAndUpdateHosts oracle st now).2.2 ≤ 3 ∧
    (oracle 0 = none → oracle 1 = none → oracle 2 = none →
      (fetchAndUpdateHosts oracle st now).1 = Except.error () ∧
      (fetchAndUpdateHosts oracle st now).2.1 = [1, 2] ∧
      updateLoopIteration oracle st now true = (st, true)) := by
  cases h0 : oracle 0 with
  | some d =>
    refine ⟨?_, ?_⟩
    · simp [fetchAndUpdateHosts, fetchRetry, h0]
    · intro hh
      exact absurd hh (by simp)
  | none =>
    cases h1 : oracle 1 with
    | some d =>
      refine ⟨?_, ?_⟩
      · simp [fetchAndUpdateHosts, fetchRetry, h0, h1]
      · intro _ hh
        exact absurd hh (by simp)
    | none =>
      cases h2 : oracle 2 with
      | some d =>
        refine ⟨?_, ?_⟩
        · simp [fetchAndUpdateHosts, fetchRetry, h0, h1, h2]
        · intro _ _ hh
          exact absurd hh (by simp)
      | none =>
        refine ⟨?_, fun _ _ _ => ⟨?_, ?_, ?_⟩⟩ <;>
          simp [fetchAndUpdateHosts, updateLoopIteration, fetchRetry, h0, h1, h2]

/-! ### Celebration helpers -/

/-- One poll's effect on the celebration machinery: `_process_response`
stores the new host list and then runs `_check_celebration`. -/
def celebStep (st : Monitor) (p : List HostState × ℚ) : Monitor :=
  checkCelebration { st with hosts := p.1 } p.2

/-- Number of steps along a run at which a celebration is created. -/
def celebCreations : Monitor → List (List HostState × ℚ) → ℕ
  | _, [] => 0
  | st, p :: rest =>
    (if st.celebration = none ∧ (celebStep st p).celebration ≠ none then 1 else 0) +
      celebCreations (celebStep st p) rest

/-- Propositional reading of `_check_celebration`. -/
theorem checkCelebration_eq (st : Monitor) (now : ℚ) :
    checkCelebration st now =
      if st.hosts = [] then st
      else if ∃ h ∈ st.hosts, ¬h.state = 0 then
        { st with had_problems := true, celebration := none }
      else if st.had_problems = true ∧ st.celebration = none then
        { st with celebration := some now }
      else st := by
  unfold checkCelebration celebrationSet
  split_ifs <;> simp_all

theorem checkCelebration_create (st : Monitor) (now : ℚ)
    (h0 : st.celebration = none) (hne : (checkCelebration st now).celebration ≠ none) :
    st.hosts ≠ [] ∧ (∀ h ∈ st.hosts, h.state = 0) ∧ st.had_problems = true ∧
      (checkCelebration st now).celebration = some now := by
  rw [checkCelebration_eq] at hne ⊢
  split_ifs at hne ⊢ <;> simp_all

theorem checkCelebration_persist (st : Monitor) (now t : ℚ)
    (h0 : st.celebration = some t) (hok : st.hosts = [] ∨ ∀ h ∈ st.hosts, h.state = 0) :
    (checkCelebration st now).celebration = some t ∧
      (checkCelebration st now).had_problems = st.had_problems := by
  rw [checkCelebration_eq]
  split_ifs with hA hB hC
  · simp_all
  · exfalso
    obtain ⟨x, hx, hxs⟩ := hB
    rcases hok with h | h
    · exact hA h
    · exact hxs (h x hx)
  · simp_all
  · simp_all

theorem checkCelebration_clear (st : Monitor) (now : ℚ)
    (hne : st.hosts ≠ []) (hbad : ¬∀ h ∈ st.hosts, h.state = 0) :
    (checkCelebration st now).celebration = none ∧
      (checkCelebration st now).had_problems = true := by
  rw [checkCelebration_eq]
  split_ifs <;> simp_all

theorem celebCreations_zero (st : Monitor) (t : ℚ) (polls : List (List HostState × ℚ))
    (h0 : st.celebration = some t) (hok : ∀ p ∈ polls, ∀ h ∈ p.1, h.state = 0) :
    celebCreations st polls = 0 := by
  induction polls generalizing st t with
  | nil => rfl
  | cons p rest ih =>
    have hstep : (celebStep st p).celebration = some t := by
      rw [celebStep]
      exact (checkCelebration_persist { st with hosts := p.1 } p.2 t h0
        (Or.inr (hok p (List.mem_cons_self _ _)))).1
    rw [celebCreations]
    rw [if_neg (by simp [h0])]
    rw [ih _ t hstep fun q hq => hok q (List.mem_cons_of_mem _ hq)]

/-- **C5.** A celebration is created only when the host list is non-empty
and all-OK, the had-problems latch is set, and no celebration is active;
while hosts stay all-OK (or absent) it persists unchanged and the latch is
untouched; as soon as some host is non-OK the celebration is cleared and
the latch set; and along any run of all-OK polls at most one creation can
happen, so a celebration cannot refire without a non-OK excursion. -/
theorem claim_C5 :
    (∀ (st : Monitor) (now : ℚ), st.celebration = none →
      (checkCelebration st now).celebration ≠ none →
      st.hosts ≠ [] ∧ (∀ h ∈ st.hosts, h.state = 0) ∧ st.had_problems = true ∧
        (checkCelebration st now).celebration = some now) ∧
    (∀ (st : Monitor) (now t : ℚ), st.celebration = some t →
      (st.hosts = [] ∨ ∀ h ∈ st.hosts, h.state = 0) →
      (checkCelebration st now).celebration = some t ∧
        (checkCelebration st now).had_problems = st.had_problems) ∧
    (∀ (st : Monitor) (now : ℚ), st.hosts ≠ [] → ¬(∀ h ∈ st.hosts, h.state = 0) →
      (checkCelebration st now).celebration = none ∧
        (checkCelebration st now).had_problems = true) ∧
    (∀ (st : Monitor) (polls : List (List HostState × ℚ)),
      (∀ p ∈ polls, ∀ h ∈ p.1, h.state = 0) → celebCreations st polls ≤ 1) := by
  refine ⟨checkCelebration_create, checkCelebration_persist, checkCelebration_clear, ?_⟩
  intro st polls hok
  induction polls generalizing st with
  | nil => exact Nat.zero_le 1
  | cons p rest ih =>
    rw [celebCreations]
    cases hc : (celebStep st p).celebration with
    | some t =>
      have h0 := celebCreations_zero (celebStep st p) t rest hc
        fun q hq => hok q (List.mem_cons_of_mem _ hq)
      rw [h0]
      split_ifs <;> omega
    | none =>
      rw [if_neg (by simp [hc])]
      have := ih (celebStep st p) fun q hq => hok q (List.mem_cons_of_mem _ hq)
      omega

/-- **C6.** The TTL sweep runs as part of the poll cycle: right after a
cycle processed at time `now`, each of the five per-host event maps holds
exactly the pre-sweep events younger than the 5-second TTL (so every event
aged ≥ 5 s is gone from the store); the snapshot mirrors the store — every
stored event appears in it and every non-celebration snapshot event is
younger than its TTL. -/
theorem claim_C6 (st : Monitor) (entries : List RawEntry) (now : ℚ) :
    (∀ e : String × SNData, e ∈ (processPoll st entries now).supernovas ↔
      e ∈ (pollA1 st entries now).sns ∧ now - e.2.start < 5) ∧
    (∀ e : String × SNData, e ∈ (processPoll st entries now).phoenixes ↔
      e ∈ (pollA1 st entries now).phx ∧ now - e.2.start < 5) ∧
    (∀ e : String × WData, e ∈ (processPoll st entries now).warnings ↔
      e ∈ (pollA1 st entries now).wrn ∧ now - e.2.start < 5) ∧
    (∀ e : String × BSData, e ∈ (processPoll st entries now).blackholes ↔
      e ∈ (pollP2 st entries now).bh ∧ now - e.2.start < 5) ∧
    (∀ e : String × BSData, e ∈ (processPoll st entries now).spawns ↔
      e ∈ (pollP2 st entries now).sp ∧ now - e.2.start < 5) ∧
    (∀ e ∈ (processPoll st entries now).supernovas,
      (⟨EvKind.supernova, e.1, e.2.start,
        getLedIndexForHost (processPoll st entries now) e.1, some e.2.prev_state,
        e.2.priority⟩ : AnimationEvent) ∈ getAnimationEvents (processPoll st entries now)) ∧
    (∀ e ∈ (processPoll st entries now).blackholes,
      (⟨EvKind.blackhole, e.1, e.2.start, e.2.key_index, none,
        e.2.priority⟩ : AnimationEvent) ∈ getAnimationEvents (processPoll st entries now)) ∧
    (∀ ev ∈ getAnimationEvents (processPoll st entries now),
      ev.type ≠ EvKind.celebration → now - ev.start_time < 5) := by
  have hfld := processPoll_fields st entries now
  have hsns : ∀ e : String × SNData, e ∈ (processPoll st entries now).supernovas ↔
      e ∈ (pollA1 st entries now).sns ∧ now - e.2.start < 5 := by
    intro e
    rw [hfld.2.2.2.1]
    exact mem_sweepMap SNData.start now (pollA1 st entries now).sns e
  have hphx : ∀ e : String × SNData, e ∈ (processPoll st entries now).phoenixes ↔
      e ∈ (pollA1 st entries now).phx ∧ now - e.2.start < 5 := by
    intro e
    rw [hfld.2.2.2.2.1]
    exact mem_sweepMap SNData.start now (pollA1 st entries now).phx e
  have hwrn : ∀ e : String × WData, e ∈ (processPoll st entries now).warnings ↔
      e ∈ (pollA1 st entries now).wrn ∧ now - e.2.start < 5 := by
    intro e
    rw [hfld.2.2.2.2.2.1]
    exact mem_sweepMap WData.start now (pollA1 st entries now).wrn e
  have hbh : ∀ e : String × BSData, e ∈ (processPoll st entries now).blackholes ↔
      e ∈ (pollP2 st entries now).bh ∧ now - e.2.start < 5 := by
    intro e
    rw [hfld.2.2.2.2.2.2.1]
    exact mem_sweepMap BSData.start now (pollP2 st entries now).bh e
  have hsp : ∀ e : String × BSData, e ∈ (processPoll st entries now).spawns ↔
      e ∈ (pollP2 st entries now).sp ∧ now - e.2.start < 5 := by
    intro e
    rw [hfld.2.2.2.2.2.2.2]
    exact mem_sweepMap BSData.start now (pollP2 st entries now).sp e
  refine ⟨hsns, hphx, hwrn, hbh, hsp, ?_, ?_, ?_⟩
  · intro e he
    unfold getAnimationEvents
    exact List.mem_append_left _ (List.mem_append_left _ (List.mem_append_left _
      (List.mem_append_left _ (List.mem_append_left _
        (List.mem_map.mpr ⟨e, he, rfl⟩)))))
  · intro e he
    unfold getAnimationEvents
    refine List.mem_append_left _ (List.mem_append_left _ (List.mem_append_right _ ?_))
    exact List.mem_map.mpr ⟨e, he, rfl⟩
  · intro ev hev hnc
    unfold getAnimationEvents at hev
    simp only [List.mem_append, List.mem_map] at hev
    rcases hev with ((((⟨e, he, rfl⟩ | ⟨e, he, rfl⟩) | ⟨e, he, rfl⟩) | ⟨e, he, rfl⟩) |
      ⟨e, he, rfl⟩) | h
    · exact ((hsns e).mp he).2
    · exact ((hphx e).mp he).2
    · exact ((hwrn e).mp he).2
    · exact ((hbh e).mp he).2
    · exact ((hsp e).mp he).2
    · cases hc : (processPoll st entries now).celebration with
      | none =>
        rw [hc] at h
        simp at h
      | some t =>
        rw [hc] at h
        simp only [List.mem_singleton] at h
        rw [h] at hnc
        exact absurd rfl hnc

/-! ### Renderer slice (`rgb_keyboard.py`): supernova host-cell color -/

/-- Python `int()` truncation toward zero. -/
def pyInt (q : ℚ) : ℤ :=
  if q < 0 then -⌊-q⌋ else ⌊q⌋

/-- `factor = max(0.0, min(1.0, factor))` in `blend_colors`. -/
def clamp01 (f : ℚ) : ℚ :=
  max 0 (min 1 f)

/-- `blend_colors`: componentwise linear interpolation with clamped
factor and `int()` truncation. -/
def blend_colors (c1 c2 : ℤ × ℤ × ℤ) (factor : ℚ) : ℤ × ℤ × ℤ :=
  (pyInt ((c1.1 : ℚ) * (1 - clamp01 factor) + (c2.1 : ℚ) * clamp01 factor),
   pyInt ((c1.2.1 : ℚ) * (1 - clamp01 factor) + (c2.2.1 : ℚ) * clamp01 factor),
   pyInt ((c1.2.2 : ℚ) * (1 - clamp01 factor) + (c2.2.2 : ℚ) * clamp01 factor))

/-- `apply_brightness`. -/
def apply_brightness (c : ℤ × ℤ × ℤ) (b : ℚ) : ℤ × ℤ × ℤ :=
  (pyInt ((c.1 : ℚ) * b), pyInt ((c.2.1 : ℚ) * b), pyInt ((c.2.2 : ℚ) * b))

/-- The prior-state color chosen at the top of the supernova animation. -/
def supernovaPrevColor (p : ℤ) : ℤ × ℤ × ℤ :=
  if p = 0 then (0, 180, 50) else if p = 1 then (255, 180, 0) else (150, 50, 200)

/-- The supernova animation's host-cell color as a function of age: the
seven-phase if/elif chain of `effect_checkmk`.  `sinq`, `piq` and `randq`
stand for `math.sin`, `math.pi` and the `random.random()` draw of the
frame; only phases 1, 3, 6 and the terminal phase consume them. -/
def supernovaHostColor (sinq : ℚ → ℚ) (piq randq elapsed : ℚ) (age : ℚ) (prev_state : ℤ)
    (brightness : ℚ) : ℤ × ℤ × ℤ :=
  if age < 4 then
    apply_brightness
      (pyInt ((((supernovaPrevColor prev_state).1 : ℚ)) *
          (0.3 + |sinq (age * (2 + (age / 4) ^ 2 * 25) * piq)| * 0.7)),
       pyInt ((((supernovaPrevColor prev_state).2.1 : ℚ)) *
          (0.3 + |sinq (age * (2 + (age / 4) ^ 2 * 25) * piq)| * 0.7)),
       pyInt ((((supernovaPrevColor prev_state).2.2 : ℚ)) *
          (0.3 + |sinq (age * (2 + (age / 4) ^ 2 * 25) * piq)| * 0.7))) brightness
  else if age < 5.5 then
    apply_brightness
      (blend_colors (supernovaPrevColor prev_state) (50, 50, 255) ((age - 4) / 1.5))
      brightness
  else if age < 9 then
    let t := (age - 5.5) / 3.5
    let rgb :=
      if t < 0.33 then blend_colors (50, 50, 255) (180, 50, 255) (t * 3)
      else if t < 0.66 then blend_colors (180, 50, 255) (150, 200, 255) ((t - 0.33) * 3)
      else blend_colors (150, 200, 255) (255, 255, 255) ((t - 0.66) * 3)
    let flicker := 1 - randq * (0.1 + t * 0.5) * (0.5 + 0.5 * sinq (age * (5 + t * 40)))
    apply_brightness
      (pyInt ((rgb.1 : ℚ) * flicker), pyInt ((rgb.2.1 : ℚ) * flicker),
       pyInt ((rgb.2.2 : ℚ) * flicker)) brightness
  else if age < 9.5 then
    apply_brightness (255, 255, 255) brightness
  else if age < 10 then
    apply_brightness (blend_colors (255, 255, 255) (255, 0, 0) ((age - 9.5) / 0.5)) brightness
  else if age < 12.5 then
    apply_brightness (pyInt (255 * (0.7 + sinq (elapsed * 4) * 0.3)), 0, 0) brightness
  else
    apply_brightness (pyInt (255 * (0.6 + sinq (elapsed * 3) * 0.4)), 0, 0) brightness

/-- `x` lies strictly between `a` and `b` whenever they differ. -/
def strictBetween (a b x : ℤ) : Prop :=
  a ≠ b → min a b < x ∧ x < max a b

/-- Componentwise strict betweenness of a color. -/
def strictBetweenRGB (c1 c2 out : ℤ × ℤ × ℤ) : Prop :=
  strictBetween c1.1 c2.1 out.1 ∧ strictBetween c1.2.1 c2.2.1 out.2.1 ∧
    strictBetween c1.2.2 c2.2.2 out.2.2

instance (a b x : ℤ) : Decidable (strictBetween a b x) := by
  unfold strictBetween
  infer_instance

instance (c1 c2 out : ℤ × ℤ × ℤ) : Decidable (strictBetweenRGB c1 c2 out) := by
  unfold strictBetweenRGB
  infer_instance

/-- **C7.** At every age in `[4, 5.5)` the supernova host cell shows the
unclamped linear interpolation between the prior-state color and blue
`(50, 50, 255)` with factor `(age − 4)/1.5` (then brightness-scaled);
in particular at age 4.6 s (factor 0.4) and brightness 1 the output lies
strictly between the two colors in every component where they differ. -/
theorem claim_C7 (sinq : ℚ → ℚ) (piq randq elapsed age brightness : ℚ) (prev_state : ℤ)
    (h1 : 4 ≤ age) (h2 : age < 5.5) :
    supernovaHostColor sinq piq randq elapsed age prev_state brightness =
      apply_brightness
        (pyInt (((supernovaPrevColor prev_state).1 : ℚ) * (1 - (age - 4) / 1.5) +
            ((50 : ℤ) : ℚ) * ((age - 4) / 1.5)),
         pyInt (((supernovaPrevColor prev_state).2.1 : ℚ) * (1 - (age - 4) / 1.5) +
            ((50 : ℤ) : ℚ) * ((age - 4) / 1.5)),
         pyInt (((supernovaPrevColor prev_state).2.2 : ℚ) * (1 - (age - 4) / 1.5) +
            ((255 : ℤ) : ℚ) * ((age - 4) / 1.5)))
        brightness ∧
    (age = 4.6 → brightness = 1 →
      strictBetweenRGB (supernovaPrevColor prev_state) (50, 50, 255)
        (supernovaHostColor sinq piq randq elapsed age prev_state brightness)) := by
  have ht0 : 0 ≤ (age - 4) / 1.5 := by
    apply div_nonneg <;> linarith
  have ht1 : (age - 4) / 1.5 ≤ 1 := by
    rw [div_le_one (by norm_num)]
    linarith
  have hc : clamp01 ((age - 4) / 1.5) = (age - 4) / 1.5 := by
    rw [clamp01, min_eq_right ht1, max_eq_right ht0]
  constructor
  · rw [supernovaHostColor, if_neg (not_lt.mpr h1), if_pos h2]
    rw [blend_colors, hc]
  · intro ha hb
    subst ha
    subst hb
    rw [supernovaHostColor, if_neg (by norm_num), if_pos (by norm_num)]
    by_cases hp0 : prev_state = 0
    · rw [hp0]
      norm_num [blend_colors, apply_brightness, clamp01, pyInt, supernovaPrevColor,
        strictBetweenRGB, strictBetween]
    · by_cases hp1 : prev_state = 1
      · rw [hp1]
        norm_num [blend_colors, apply_brightness, clamp01, pyInt, supernovaPrevColor,
          strictBetweenRGB, strictBetween]
      · have hpc : supernovaPrevColor prev_state = (150, 50, 200) := by
          rw [supernovaPrevColor, if_neg hp0, if_neg hp1]
        rw [hpc]
        norm_num [blend_colors, apply_brightness, clamp01, pyInt,
          strictBetweenRGB, strictBetween]

/-- The rebuilt host list carries exactly the sorted raw `(name, state)`
pairs. -/
theorem mkHosts_map_name_state (sorted : List (String × ℤ)) :
    (mkHosts sorted).map (fun h => (h.name, h.state)) = sorted := by
  unfold mkHosts
  rw [List.map_map]
  have h1 : ((fun h : HostState => (h.name, h.state)) ∘
      fun p : ℕ × (String × ℤ) =>
        (⟨p.2.1, p.2.2, p.1, zoneColor p.2.1, hostPriority p.2.1⟩ : HostState)) =
      (fun q : String × ℤ => (q.1, q.2)) ∘ Prod.snd := rfl
  rw [h1, ← List.map_map, List.enum_map_snd]
  simp

/-- **C8 (counterexample to the claim as stated).** A host record whose
state value is missing is stored with state 0 (OK), not 3 (UNKNOWN). -/
theorem claim_C8_counterexample :
    ((processPoll Monitor.initial [⟨some "h1", none⟩] 0).hosts.map fun h => h.state) = [0] ∧
    ((processPoll Monitor.initial [⟨some "h1", none⟩] 0).hosts.map fun h => h.state) ≠ [3] := by
  have h : ((processPoll Monitor.initial [⟨some "h1", none⟩] 0).hosts.map
      fun h => h.state) = [0] := by
    rw [(processPoll_fields Monitor.initial [⟨some "h1", none⟩] 0).1]
    decide
  exact ⟨h, by rw [h]; decide⟩

/-- **C8 (amended).** Response processing is total (never raises) and the
poll's host list carries exactly the parsed `(name, state)` pairs: a record
with a missing `id` contributes name `""`, a record with a missing state
contributes state 0 (OK) — not UNKNOWN — and an out-of-enumeration state
value is stored unchanged. -/
theorem claim_C8 (st : Monitor) (entries : List RawEntry) (now : ℚ) :
    ((processPoll st entries now).hosts.map fun h => (h.name, h.state)).Perm
      (entries.map fun e => (e.id.getD "", e.state.getD 0)) := by
  rw [(processPoll_fields st entries now).1, mkHosts_map_name_state]
  exact List.perm_insertionSort _ (parseEntries entries)

/-- **C9.** A supernova, phoenix or warning event whose hostname has no
record in the current host list is reported with `led_index` 0 by the
snapshot: the lookup falls back to 0 on a miss. -/
theorem claim_C9 (st : Monitor) (name : String)
    (habs : ∀ h ∈ st.hosts, h.name ≠ name) :
    getLedIndexForHost st name = 0 ∧
    (∀ ev ∈ getAnimationEvents st, ev.hostname = name →
      (ev.type = EvKind.supernova ∨ ev.type = EvKind.phoenix ∨ ev.type = EvKind.warning) →
      ev.led_index = 0) := by
  have hled : getLedIndexForHost st name = 0 := by
    rw [getLedIndexForHost]
    have hfind : st.hosts.find? (fun h => decide (h.name = name)) = none := by
      rw [List.find?_eq_none]
      intro x hx
      simp [habs x hx]
    rw [hfind]
  refine ⟨hled, ?_⟩
  intro ev hev hname htype
  unfold getAnimationEvents at hev
  simp only [List.mem_append, List.mem_map] at hev
  rcases hev with ((((⟨e, he, rfl⟩ | ⟨e, he, rfl⟩) | ⟨e, he, rfl⟩) | ⟨e, he, rfl⟩) |
    ⟨e, he, rfl⟩) | h
  · simp only at hname ⊢
    rw [hname]
    exact hled
  · simp only at hname ⊢
    rw [hname]
    exact hled
  · simp only at hname ⊢
    rw [hname]
    exact hled
  · rcases htype with h | h | h <;> simp at h
  · rcases htype with h | h | h <;> simp at h
  · cases hc : st.celebration with
    | none =>
      rw [hc] at h
      simp at h
    | some t =>
      rw [hc] at h
      simp only [List.mem_singleton] at h
      rw [h] at htype
      rcases htype with h' | h' | h' <;> simp at h'

/-! ### Heap model for `get_hosts` record copying (C10) -/

/-- Read a heap cell (address = list position). -/
def heapGet (hp : List HostState) (a : ℕ) : HostState :=
  hp.getD a ⟨"", 0, 0, (0, 0, 0), 0⟩

/-- Overwrite a heap cell: a caller mutating a returned record. -/
def heapSet (hp : List HostState) (a : ℕ) (v : HostState) : List HostState :=
  hp.set a v

/-- `get_hosts` under an explicit heap: for each internal address, a new
`HostState` is constructed field by field and allocated at a fresh
address; the new heap and the returned addresses are given back. -/
def getHostsAlloc (hp : List HostState) (addrs : List ℕ) : List HostState × List ℕ :=
  (hp ++ addrs.map fun a =>
      ⟨(heapGet hp a).name, (heapGet hp a).state, (heapGet hp a).led_index,
       (heapGet hp a).zone_color, (heapGet hp a).priority⟩,
   List.range' hp.length addrs.length)

/-- **C10.** `get_hosts` hands back newly allocated records whose fields
equal the internal ones; no returned address aliases an internal record,
so overwriting any returned record leaves every internal record — and
hence the value of every later `get_hosts` — unchanged. -/
theorem claim_C10 (hp : List HostState) (addrs : List ℕ)
    (hv : ∀ a ∈ addrs, a < hp.length) :
    ((getHostsAlloc hp addrs).2.length = addrs.length) ∧
    (∀ i, i < addrs.length →
      heapGet (getHostsAlloc hp addrs).1 ((getHostsAlloc hp addrs).2.getD i 0) =
        heapGet hp (addrs.getD i 0)) ∧
    (∀ a ∈ (getHostsAlloc hp addrs).2, a ∉ addrs) ∧
    (∀ a ∈ (getHostsAlloc hp addrs).2, ∀ v : HostState,
      addrs.map (heapGet (heapSet (getHostsAlloc hp addrs).1 a v)) =
        addrs.map (heapGet hp)) := by
  have hmemr : ∀ a, a ∈ (getHostsAlloc hp addrs).2 → hp.length ≤ a := by
    intro a ha
    rw [getHostsAlloc] at ha
    simp only [List.mem_range'] at ha
    obtain ⟨i, hi, rfl⟩ := ha
    exact Nat.le_add_right _ _
  have hinternal : ∀ b ∈ addrs, heapGet (getHostsAlloc hp addrs).1 b = heapGet hp b := by
    intro b hb
    rw [getHostsAlloc, heapGet, heapGet, List.getD_eq_getElem?_getD,
      List.getD_eq_getElem?_getD, List.getElem?_append_left (hv b hb)]
  refine ⟨?_, ?_, ?_, ?_⟩
  · rw [getHostsAlloc]
    exact List.length_range' ..
  · intro i hi
    have haddr : ((getHostsAlloc hp addrs).2.getD i 0) = hp.length + i := by
      rw [getHostsAlloc, List.getD_eq_getElem?_getD, List.getElem?_range' _ _ hi]
      simp
    rw [haddr, getHostsAlloc, heapGet, List.getD_eq_getElem?_getD,
      List.getElem?_append_right (Nat.le_add_right _ _)]
    rw [Nat.add_sub_cancel_left, List.getElem?_map]
    have hlt : i < addrs.length := hi
    rw [List.getElem?_eq_getElem hlt, List.getD_eq_getElem?_getD,
      List.getElem?_eq_getElem hlt]
    rfl
  · intro a ha hmem
    exact absurd (hv a hmem) (Nat.not_lt.mpr (hmemr a ha))
  · intro a ha v
    refine List.map_congr_left ?_
    intro b hb
    have hne : a ≠ b := by
      intro rfl'
      exact absurd (hv b hb) (Nat.not_lt.mpr (hmemr b (rfl' ▸ ha)))
    rw [heapSet, heapGet, List.getD_eq_getElem?_getD, List.getElem?_set_ne hne]
    rw [← List.getD_eq_getElem?_getD _ _ _, ← heapGet]
    exact hinternal b hb

/-! ### Witnesses -/

/-- Witness for C1: an OK→CRIT transition stores one supernova with
`prev_state = OK`. -/
theorem claim_C1_witness :
    MonitorWF ⟨[], [("srv1", 0)], ["srv1"], [], [], [], [], [], none, false⟩ ∧
    (alookup "srv1" (processPoll ⟨[], [("srv1", 0)], ["srv1"], [], [], [], [], [], none, false⟩
        [⟨some "srv1", some 2⟩] 10).supernovas = some ⟨10, 0, 0⟩ ∧
      keyCount "srv1" (processPoll ⟨[], [("srv1", 0)], ["srv1"], [], [], [], [], [], none, false⟩
        [⟨some "srv1", some 2⟩] 10).supernovas = 1 ∧
      alookup "srv1" (processPoll ⟨[], [("srv1", 0)], ["srv1"], [], [], [], [], [], none, false⟩
        [⟨some "srv1", some 2⟩] 10).phoenixes = none) :=
  ⟨by decide,
    (claim_C1 ⟨[], [("srv1", 0)], ["srv1"], [], [], [], [], [], none, false⟩
      [⟨some "srv1", some 2⟩] 10 (by decide) (by decide) "srv1" 2 (by decide)).1 (by decide)⟩

/-- Witness for C2: Scenario B — host `"b"` disappears, gets one blackhole
at its prior position and is purged from the previous-state map. -/
theorem claim_C2_witness :
    (["a", "b"] : List String) ≠ [] ∧
    (alookup "b" (processPoll
        ⟨[⟨"a", 0, 0, (100, 220, 100), 7⟩, ⟨"b", 0, 1, (100, 220, 100), 7⟩],
          [("a", 0), ("b", 0)], ["a", "b"], [], [], [], [], [], none, false⟩
        [⟨some "a", some 0⟩] 1).blackholes = some ⟨1, 1, 7⟩ ∧
      keyCount "b" (processPoll
        ⟨[⟨"a", 0, 0, (100, 220, 100), 7⟩, ⟨"b", 0, 1, (100, 220, 100), 7⟩],
          [("a", 0), ("b", 0)], ["a", "b"], [], [], [], [], [], none, false⟩
        [⟨some "a", some 0⟩] 1).blackholes = 1 ∧
      alookup "b" (processPoll
        ⟨[⟨"a", 0, 0, (100, 220, 100), 7⟩, ⟨"b", 0, 1, (100, 220, 100), 7⟩],
          [("a", 0), ("b", 0)], ["a", "b"], [], [], [], [], [], none, false⟩
        [⟨some "a", some 0⟩] 1).previous_states = none) :=
  ⟨by decide,
    (claim_C2 ⟨[⟨"a", 0, 0, (100, 220, 100), 7⟩, ⟨"b", 0, 1, (100, 220, 100), 7⟩],
        [("a", 0), ("b", 0)], ["a", "b"], [], [], [], [], [], none, false⟩
      [⟨some "a", some 0⟩] 1 (by decide) (by decide)).1 "b" (by decide) (by decide)⟩

/-- Witness for C3: after one poll the previous-state map holds the
observed state, and an identical second poll writes no events. -/
theorem claim_C3_witness :
    (("h1", (1 : ℤ)) ∈ parseEntries [⟨some "h1", some 1⟩]) ∧
    alookup "h1" (processPoll Monitor.initial [⟨some "h1", some 1⟩] 0).previous_states =
      some 1 ∧
    (processPollLog (processPoll Monitor.initial [⟨some "h1", some 1⟩] 0)
      [⟨some "h1", some 1⟩] 1).2 = [] :=
  ⟨by decide,
    (claim_C3 Monitor.initial [⟨some "h1", some 1⟩] 0 1 (by decide)).1 ("h1", 1) (by decide),
    (claim_C3 Monitor.initial [⟨some "h1", some 1⟩] 0 1 (by decide)).2⟩

/-- Witness for C4: an always-failing source yields at most 3 attempts,
the backoff sleeps 1 s and 2 s, the cycle error, and an unchanged monitor
with the loop still running. -/
theorem claim_C4_witness :
    (fetchAndUpdateHosts (fun _ => none) Monitor.initial 0).2.2 ≤ 3 ∧
    (fetchAndUpdateHosts (fun _ => none) Monitor.initial 0).1 = Except.error () ∧
    (fetchAndUpdateHosts (fun _ => none) Monitor.initial 0).2.1 = [1, 2] ∧
    updateLoopIteration (fun _ => none) Monitor.initial 0 true = (Monitor.initial, true) :=
  ⟨(claim_C4 (fun _ => none) Monitor.initial 0).1,
    (claim_C4 (fun _ => none) Monitor.initial 0).2 rfl rfl rfl⟩

/-- Witness for C5: with the latch set and one OK host, a celebration is
created; and over two all-OK polls at most one creation happens. -/
theorem claim_C5_witness :
    (⟨[⟨"a", 0, 0, (100, 220, 100), 7⟩], [], [], [], [], [], [], [], none,
        true⟩ : Monitor).celebration = none ∧
    (checkCelebration ⟨[⟨"a", 0, 0, (100, 220, 100), 7⟩], [], [], [], [], [], [], [], none,
        true⟩ 2).celebration = some 2 ∧
    celebCreations ⟨[⟨"a", 0, 0, (100, 220, 100), 7⟩], [], [], [], [], [], [], [], none, true⟩
      [([⟨"a", 0, 0, (100, 220, 100), 7⟩], 1), ([⟨"a", 0, 0, (100, 220, 100), 7⟩], 2)] ≤ 1 :=
  ⟨rfl,
    (claim_C5.1 ⟨[⟨"a", 0, 0, (100, 220, 100), 7⟩], [], [], [], [], [], [], [], none, true⟩ 2
      rfl (by decide)).2.2.2,
    claim_C5.2.2.2 ⟨[⟨"a", 0, 0, (100, 220, 100), 7⟩], [], [], [], [], [], [], [], none, true⟩
      [([⟨"a", 0, 0, (100, 220, 100), 7⟩], 1), ([⟨"a", 0, 0, (100, 220, 100), 7⟩], 2)]
      (by decide)⟩

/-- Witness for C6: a freshly stored supernova (age 0 < TTL) is in the
store after the sweep and appears in the snapshot. -/
theorem claim_C6_witness :
    (("h1", (⟨0, 0, 7⟩ : SNData)) ∈
      (processPoll Monitor.initial [⟨some "h1", some 2⟩] 0).supernovas) ∧
    ((⟨EvKind.supernova, "h1", 0, 0, some 0, 7⟩ : AnimationEvent) ∈
      getAnimationEvents (processPoll Monitor.initial [⟨some "h1", some 2⟩] 0)) := by
  have h := claim_C6 Monitor.initial [⟨some "h1", some 2⟩] 0
  have hmem := (h.1 ("h1", ⟨0, 0, 7⟩)).mpr ⟨by decide, by show (0 : ℚ) - 0 < 5; norm_num⟩
  exact ⟨hmem, h.2.2.2.2.2.1 _ hmem⟩

/-- Witness for C7: rendering at age 4.6 s and brightness 1 into a
supernova with prior state OK yields a color strictly between green and
blue in every differing component. -/
theorem claim_C7_witness :
    ((4 : ℚ) ≤ 4.6) ∧ ((4.6 : ℚ) < 5.5) ∧
    strictBetweenRGB (supernovaPrevColor 0) (50, 50, 255)
      (supernovaHostColor (fun _ => 0) 3 0 0 4.6 0 1) :=
  ⟨by norm_num, by norm_num,
    (claim_C7 (fun _ => 0) 3 0 0 4.6 1 0 (by norm_num) (by norm_num)).2 rfl rfl⟩

/-- Witness for C9: a supernova for a hostname absent from the host list
is reported at cell 0. -/
theorem claim_C9_witness :
    getLedIndexForHost ⟨[⟨"x", 0, 0, (100, 220, 100), 7⟩], [], [],
      [("ghost", ⟨0, 0, 7⟩)], [], [], [], [], none, false⟩ "ghost" = 0 ∧
    ((⟨EvKind.supernova, "ghost", 0, 0, some 0, 7⟩ : AnimationEvent) ∈
      getAnimationEvents ⟨[⟨"x", 0, 0, (100, 220, 100), 7⟩], [], [],
        [("ghost", ⟨0, 0, 7⟩)], [], [], [], [], none, false⟩) ∧
    (⟨EvKind.supernova, "ghost", 0, 0, some 0, 7⟩ : AnimationEvent).led_index = 0 := by
  have h := claim_C9 ⟨[⟨"x", 0, 0, (100, 220, 100), 7⟩], [], [],
    [("ghost", ⟨0, 0, 7⟩)], [], [], [], [], none, false⟩ "ghost" (by decide)
  refine ⟨h.1, by decide, ?_⟩
  exact h.2 ⟨EvKind.supernova, "ghost", 0, 0, some 0, 7⟩ (by decide) rfl (Or.inl rfl)

/-- Witness for C10: one internal record, one returned copy — the copy's
cell is fresh, equal in value, and overwriting it leaves the internal
record (and any later read of it) unchanged. -/
theorem claim_C10_witness :
    (getHostsAlloc [⟨"a", 0, 0, (100, 220, 100), 7⟩] [0]).2.length = 1 ∧
    heapGet (getHostsAlloc [⟨"a", 0, 0, (100, 220, 100), 7⟩] [0]).1
      ((getHostsAlloc [⟨"a", 0, 0, (100, 220, 100), 7⟩] [0]).2.getD 0 0) =
      heapGet [⟨"a", 0, 0, (100, 220, 100), 7⟩] 0 ∧
    ((1 : ℕ) ∉ ([0] : List ℕ)) ∧
    [0].map (heapGet (heapSet (getHostsAlloc [⟨"a", 0, 0, (100, 220, 100), 7⟩] [0]).1 1
        ⟨"mut", 9, 9, (1, 2, 3), 1⟩)) =
      [0].map (heapGet [⟨"a", 0, 0, (100, 220, 100), 7⟩]) := by
  have h := claim_C10 [⟨"a", 0, 0, (100, 220, 100), 7⟩] [0] (by decide)
  exact ⟨h.1, h.2.1 0 (by decide), h.2.2.1 1 (by decide),
    h.2.2.2 1 (by decide) ⟨"mut", 9, 9, (1, 2, 3), 1⟩⟩

end CMonKey
